import Mathlib

/-!
Shallow embedding of eDisGo's grid constraint-violation analysis
(`edisgo/flex_opt/check_tech_constraints.py`) and of its PowerModels
exporter (`edisgo/io/powermodels_io.py`), with proofs of the spec-level
properties of these modules.

Modelling conventions:
* floating-point quantities are modelled as rationals (`ℚ`);
* a pandas `DataFrame`/`Series` keyed by element names is modelled as a
  `List (String × List ℚ)` (name, series over time steps), and a time index
  by list positions `0, 1, ...`;
* exceptions (`raise`) are modelled with `Except`/`Bool` flags;
* pandas index-membership (`isin`) on the unique element-name indexes is
  modelled as list membership.
-/

/-- Classification of a time step (`edisgo_obj.timeseries.timesteps_load_feedin_case`):
every time step is exactly one of load case or feed-in case. -/
inductive Case where
  | load_case
  | feedin_case
deriving DecidableEq, Repr

/-- The `grid_expansion_load_factors` configuration section, scoped to one
voltage level: allowed load factors for lines and transformers per case
(config keys `{vl}_{case}_line` and `{vl}_{case}_transformer`). -/
structure LFConfig where
  line_load_case : ℚ
  line_feedin_case : ℚ
  trafo_load_case : ℚ
  trafo_feedin_case : ℚ
deriving DecidableEq, Repr

/-- Line load factor lookup `config["grid_expansion_load_factors"][f"{vl}_{case}_line"]`. -/
def lineFactor (cfg : LFConfig) : Case → ℚ
  | .load_case => cfg.line_load_case
  | .feedin_case => cfg.line_feedin_case

/-- Transformer load factor lookup
`config["grid_expansion_load_factors"][f"{vl}_{case}_transformer"]`. -/
def trafoFactor (cfg : LFConfig) : Case → ℚ
  | .load_case => cfg.trafo_load_case
  | .feedin_case => cfg.trafo_feedin_case

/-- Maximum of a list of rationals (pandas `.max()` over a non-empty
row/column; `0` as junk value on the empty list). -/
def listMax : List ℚ → ℚ
  | [] => 0
  | x :: xs => xs.foldl max x

/-- Embedding of `check_ten_percent_voltage_deviation`.  `v_res` is the table
of bus voltage magnitudes (one inner list per time step).  The source raises a
`ValueError` iff some entry is above 1.1 or below 0.9 p.u. and otherwise
returns `None` without touching any state; `true` models the raise. -/
def check_ten_percent_voltage_deviation (v_res : List (List ℚ)) : Bool :=
  (v_res.any fun row => row.any fun x => decide ((11 : ℚ)/10 < x))
    || (v_res.any fun row => row.any fun x => decide (x < (9 : ℚ)/10))

/-- C5: the strict-band voltage check raises if and only if some bus voltage at
some time step is strictly above 1.1 p.u. or strictly below 0.9 p.u.
(otherwise it returns normally, modelled by `false`); in particular it raises
on the single-bus voltage series `[0.88, 1.12, 1.0, 1.0]`. -/
theorem c5_ten_percent_band_raise_iff :
    (∀ v_res : List (List ℚ),
      check_ten_percent_voltage_deviation v_res = true ↔
        ∃ row ∈ v_res, ∃ x ∈ row, (11 : ℚ)/10 < x ∨ x < (9 : ℚ)/10)
    ∧ check_ten_percent_voltage_deviation [[88/100], [112/100], [1], [1]] = true := by
  constructor
  · intro v_res
    simp only [check_ten_percent_voltage_deviation, Bool.or_eq_true, List.any_eq_true,
      decide_eq_true_iff]
    constructor
    · rintro (⟨row, hrow, x, hx, h⟩ | ⟨row, hrow, x, hx, h⟩)
      · exact ⟨row, hrow, x, hx, Or.inl h⟩
      · exact ⟨row, hrow, x, hx, Or.inr h⟩
    · rintro ⟨row, hrow, x, hx, h | h⟩
      · exact Or.inl ⟨row, hrow, x, hx, h⟩
      · exact Or.inr ⟨row, hrow, x, hx, h⟩
  · norm_num [check_ten_percent_voltage_deviation]

/-- A row of the topology's `lines_df`: line name (the index), its two endpoint
buses and its apparent-power rating `s_nom` in MVA. -/
structure Line where
  name : String
  bus0 : String
  bus1 : String
  s_nom : ℚ
deriving DecidableEq, Repr

/-- Embedding of the per-case body of `_lines_allowed_load_voltage_level`:
the allowed apparent power of every line of the voltage level for one case.
If the configured load factor `lf` is not `1.0`, lines whose two endpoint
buses both lie in `buses_in_cycles` (the ring buses,
`itertools.chain.from_iterable(topology.rings)`) get `s_nom * lf` and the
remaining (radial-feeder) lines get `s_nom`; the two groups are concatenated
in that order.  If `lf = 1.0` the partitioning is skipped and every line gets
`s_nom * lf`. -/
def allowed_load_per_case (lines_df : List Line) (buses_in_cycles : List String)
    (lf : ℚ) : List (String × ℚ) :=
  if lf ≠ 1 then
    let lines_in_cycles := lines_df.filter fun l =>
      decide (l.bus0 ∈ buses_in_cycles) && decide (l.bus1 ∈ buses_in_cycles)
    let lines_radial_feeders := lines_df.filter fun l =>
      !decide (l.name ∈ lines_in_cycles.map Line.name)
    lines_in_cycles.map (fun l => (l.name, l.s_nom * lf))
      ++ lines_radial_feeders.map (fun l => (l.name, l.s_nom))
  else
    lines_df.map fun l => (l.name, l.s_nom * lf)

/-- Embedding of `_lines_allowed_load_voltage_level`: one allowed-load table
per time step power flow was run for, selected by that time step's case
(`timesteps_load_feedin_case.loc[results.i_res.index].apply(...)`). -/
def lines_allowed_load_voltage_level (lines_df : List Line)
    (buses_in_cycles : List String) (cfg : LFConfig) (ts_cases : List Case) :
    List (List (String × ℚ)) :=
  ts_cases.map fun c => allowed_load_per_case lines_df buses_in_cycles (lineFactor cfg c)

/-- Helper: looking a name up in a name-keyed map of a list with distinct names
finds the element's own value. -/
theorem lookup_map_of_nodup (f : Line → ℚ) :
    ∀ (ls : List Line), (ls.map Line.name).Nodup → ∀ l ∈ ls,
      List.lookup l.name (ls.map fun x => (x.name, f x)) = some (f l) := by
  intro ls
  induction ls with
  | nil => intro _ l hl; cases hl
  | cons a as ih =>
    intro hnd l hl
    simp only [List.map_cons, List.nodup_cons] at hnd
    rcases List.mem_cons.mp hl with h | h
    · subst h
      simp [List.lookup]
    · have hne : a.name ≠ l.name := fun he =>
        hnd.1 (he ▸ List.mem_map_of_mem Line.name h)
      have hbeq : (l.name == a.name) = false :=
        beq_eq_false_iff_ne.mpr fun he => hne he.symm
      simp only [List.map_cons, List.lookup, hbeq]
      exact ih hnd.2 l h

/-- Helper: a lookup that succeeds on the left half of an append. -/
theorem lookup_append_of_some {k : String} {v : ℚ} {xs ys : List (String × ℚ)}
    (h : List.lookup k xs = some v) : List.lookup k (xs ++ ys) = some v := by
  induction xs with
  | nil => simp [List.lookup] at h
  | cons a as ih =>
    simp only [List.cons_append, List.lookup] at h ⊢
    cases hk : (k == a.1) with
    | true => simpa [hk] using h
    | false => simp only [hk] at h ⊢; exact ih h

/-- Helper: a lookup that fails on the left half of an append. -/
theorem lookup_append_of_none {k : String} {xs ys : List (String × ℚ)}
    (h : List.lookup k xs = none) : List.lookup k (xs ++ ys) = List.lookup k ys := by
  induction xs with
  | nil => simp
  | cons a as ih =>
    simp only [List.cons_append, List.lookup] at h ⊢
    cases hk : (k == a.1) with
    | true => simp [hk] at h
    | false => simp only [hk] at h ⊢; exact ih h

/-- Helper: looking up a name absent from the keys of a name-keyed map fails. -/
theorem lookup_map_of_not_mem (f : Line → ℚ) {k : String} :
    ∀ (ls : List Line), k ∉ ls.map Line.name →
      List.lookup k (ls.map fun x => (x.name, f x)) = none := by
  intro ls
  induction ls with
  | nil => intro _; simp [List.lookup]
  | cons a as ih =>
    intro hk
    simp only [List.map_cons, List.mem_cons, not_or] at hk
    have hbeq : (k == a.name) = false := beq_eq_false_iff_ne.mpr hk.1
    simp only [List.map_cons, List.lookup, hbeq]
    exact ih hk.2

/-- C2: in the allowed-line-load calculator, a load factor of 1.0 makes every
line's allowed load equal its rating `s_nom` exactly, for any ring-bus set;
a load factor `lf ≠ 1.0` gives `s_nom * lf` to lines with both endpoint buses
in the ring-bus set and `s_nom` (that is, `s_nom * 1.0`) to all other lines;
and the per-time-step table is the per-case table of that time step's case
classification. -/
theorem c2_lines_allowed_load (lines_df : List Line) (buses_in_cycles : List String)
    (cfg : LFConfig) (ts_cases : List Case) (l : Line)
    (hnd : (lines_df.map Line.name).Nodup) (hl : l ∈ lines_df) :
    (∀ lf : ℚ, lf = 1 → ∀ cyc : List String,
        List.lookup l.name (allowed_load_per_case lines_df cyc lf) = some l.s_nom)
    ∧ (∀ lf : ℚ, lf ≠ 1 →
        List.lookup l.name (allowed_load_per_case lines_df buses_in_cycles lf) =
          some (if l.bus0 ∈ buses_in_cycles ∧ l.bus1 ∈ buses_in_cycles
            then l.s_nom * lf else l.s_nom))
    ∧ (∀ t : ℕ, t < ts_cases.length →
        (lines_allowed_load_voltage_level lines_df buses_in_cycles cfg ts_cases).getD t []
          = allowed_load_per_case lines_df buses_in_cycles
              (lineFactor cfg (ts_cases.getD t .load_case))) := by
  refine ⟨?_, ?_, ?_⟩
  · intro lf hlf cyc
    subst hlf
    simp only [allowed_load_per_case, ne_eq, not_true_eq_false, if_false, ite_false,
      if_neg (by simp : ¬ (1 : ℚ) ≠ 1)]
    simpa using lookup_map_of_nodup (fun x => x.s_nom * 1) lines_df hnd l hl
  · intro lf hlf
    simp only [allowed_load_per_case, if_pos hlf]
    set p : Line → Bool := fun x =>
      decide (x.bus0 ∈ buses_in_cycles) && decide (x.bus1 ∈ buses_in_cycles) with hp
    have hndc : ((lines_df.filter p).map Line.name).Nodup :=
      hnd.sublist (List.Sublist.map Line.name (List.filter_sublist lines_df))
    by_cases hmem : l.bus0 ∈ buses_in_cycles ∧ l.bus1 ∈ buses_in_cycles
    · have hlc : l ∈ lines_df.filter p :=
        List.mem_filter.mpr ⟨hl, by simp [hp, hmem.1, hmem.2]⟩
      rw [if_pos hmem]
      exact lookup_append_of_some
        (lookup_map_of_nodup (fun x => x.s_nom * lf) (lines_df.filter p) hndc l hlc)
    · have hlnc : l ∉ lines_df.filter p := fun hc => by
        have := (List.mem_filter.mp hc).2
        simp only [hp, Bool.and_eq_true, decide_eq_true_iff] at this
        exact hmem this
      have hname : l.name ∉ (lines_df.filter p).map Line.name := by
        intro hn
        rcases List.mem_map.mp hn with ⟨c, hc, hcn⟩
        have : c = l :=
          List.inj_on_of_nodup_map hnd (List.mem_of_mem_filter hc) hl hcn
        exact hlnc (this ▸ hc)
      have hrad : l ∈ lines_df.filter fun x =>
          !decide (x.name ∈ (lines_df.filter p).map Line.name) := by
        refine List.mem_filter.mpr ⟨hl, ?_⟩
        simpa using hname
      have hndr : ((lines_df.filter fun x =>
          !decide (x.name ∈ (lines_df.filter p).map Line.name)).map Line.name).Nodup :=
        hnd.sublist (List.Sublist.map Line.name (List.filter_sublist lines_df))
      rw [if_neg hmem,
        lookup_append_of_none (lookup_map_of_not_mem (fun x => x.s_nom * lf) _ hname)]
      exact lookup_map_of_nodup (fun x => x.s_nom) _ hndr l hrad
  · intro t ht
    have h1 : t < (lines_allowed_load_voltage_level lines_df buses_in_cycles cfg
        ts_cases).length := by
      simpa [lines_allowed_load_voltage_level] using ht
    rw [List.getD_eq_getElem _ _ h1, List.getD_eq_getElem _ _ ht]
    simp [lines_allowed_load_voltage_level]

/-- Witness for C2 at a concrete two-line network: line `l1` lies on the ring
(`A`, `B` are ring buses) and gets `2 * 0.5 = 1` in the feed-in case whose load
factor is `0.5`; in the load case (factor `1.0`) it keeps its rating `2`. -/
theorem c2_lines_allowed_load_witness :
    List.lookup "l1"
        (allowed_load_per_case [⟨"l1", "A", "B", 2⟩, ⟨"l2", "B", "C", 3⟩]
          ["A", "B"] (1/2)) = some 1
    ∧ List.lookup "l1"
        (allowed_load_per_case [⟨"l1", "A", "B", 2⟩, ⟨"l2", "B", "C", 3⟩]
          ["A", "B"] 1) = some 2 := by
  have h := c2_lines_allowed_load [⟨"l1", "A", "B", 2⟩, ⟨"l2", "B", "C", 3⟩]
    ["A", "B"] ⟨1, 1/2, 1, 1⟩ [Case.load_case] ⟨"l1", "A", "B", 2⟩
    (by decide) (by simp)
  constructor
  · have h2 := h.2.1 (1/2) (by norm_num)
    rw [h2]
    norm_num [show ("A" : String) ∈ ["A", "B"] by decide,
      show ("B" : String) ∈ ["A", "B"] by decide]
  · have h1 := h.1 1 rfl ["A", "B"]
    simpa using h1

/-- A column of the power-flow voltage table `results.v_res`: a bus name and
its voltage-magnitude series over the time steps (p.u.). -/
structure BusV where
  name : String
  v : List ℚ
deriving DecidableEq, Repr

/-- Row of overvoltage deviations of one bus:
`bus.T - v_dev_allowed_upper.values` (one entry per time step). -/
def ovRow (upper : List ℚ) (b : BusV) : List ℚ :=
  List.zipWith (fun x u => x - u) b.v upper

/-- Row of undervoltage deviations of one bus:
`-bus.T + v_dev_allowed_lower.values` (one entry per time step). -/
def uvRow (lower : List ℚ) (b : BusV) : List ℚ :=
  List.zipWith (fun x lo => lo - x) b.v lower

/-- Does the bus exceed the upper limit at some time step?  This is membership
in `v_mag_pu_pfa.T[v_mag_pu_pfa.T > v_dev_allowed_upper_format].dropna(how="all")`. -/
def hasOv (upper : List ℚ) (b : BusV) : Bool :=
  (List.zipWith (fun x u => decide (u < x)) b.v upper).any id

/-- Does the bus fall below the lower limit at some time step? -/
def hasUv (lower : List ℚ) (b : BusV) : Bool :=
  (List.zipWith (fun x lo => decide (x < lo)) b.v lower).any id

/-- Peak overvoltage deviation of a bus over all time steps
(`voltage_diff_ov.max(axis=1)`). -/
def ovPeak (upper : List ℚ) (b : BusV) : ℚ := listMax (ovRow upper b)

/-- Peak undervoltage deviation of a bus over all time steps
(`voltage_diff_uv.max(axis=1)`). -/
def uvPeak (lower : List ℚ) (b : BusV) : ℚ := listMax (uvRow lower b)

/-- Buses with at least one overvoltage violation (`overvoltage` in
`voltage_diff`), in original bus order. -/
def vd_overvoltage (buses : List BusV) (upper : List ℚ) : List BusV :=
  buses.filter (hasOv upper)

/-- Buses with at least one undervoltage violation (`undervoltage`). -/
def vd_undervoltage (buses : List BusV) (lower : List ℚ) : List BusV :=
  buses.filter (hasUv lower)

/-- Buses with both kinds of violation:
`overvoltage[overvoltage.index.isin(undervoltage.index)]` (`buses_both`). -/
def vd_buses_both (buses : List BusV) (upper lower : List ℚ) : List BusV :=
  (vd_overvoltage buses upper).filter fun b =>
    decide (b.name ∈ (vd_undervoltage buses lower).map BusV.name)

/-- Both-violating buses kept on the overvoltage side:
`voltage_diff_ov.loc[voltage_diff_ov.max(axis=1) > voltage_diff_uv.max(axis=1)]`. -/
def vd_both_ov (buses : List BusV) (upper lower : List ℚ) : List BusV :=
  (vd_buses_both buses upper lower).filter fun b =>
    decide (uvPeak lower b < ovPeak upper b)

/-- Both-violating buses kept on the undervoltage side:
`voltage_diff_uv.loc[~voltage_diff_uv.index.isin(voltage_diff_ov.index)]`. -/
def vd_both_uv (buses : List BusV) (upper lower : List ℚ) : List BusV :=
  (vd_buses_both buses upper lower).filter fun b =>
    !decide (b.name ∈ (vd_both_ov buses upper lower).map BusV.name)

/-- Buses with only overvoltage violations (`buses_ov`):
`overvoltage[~overvoltage.index.isin(buses_both.columns)]`. -/
def vd_buses_ov (buses : List BusV) (upper lower : List ℚ) : List BusV :=
  (vd_overvoltage buses upper).filter fun b =>
    !decide (b.name ∈ (vd_buses_both buses upper lower).map BusV.name)

/-- Buses with only undervoltage violations (`buses_uv`):
`undervoltage[~undervoltage.index.isin(buses_both.columns)]`. -/
def vd_buses_uv (buses : List BusV) (upper lower : List ℚ) : List BusV :=
  (vd_undervoltage buses lower).filter fun b =>
    !decide (b.name ∈ (vd_buses_both buses upper lower).map BusV.name)

/-- Embedding of `voltage_diff`: returns `(voltage_diff_uv, voltage_diff_ov)`,
the per-bus deviation rows from the allowed lower and upper voltage limits
respectively, each the concatenation of the rows of the both-violating buses
kept on that side with the rows of the single-sided violators. -/
def voltage_diff (buses : List BusV) (upper lower : List ℚ) :
    List (String × List ℚ) × List (String × List ℚ) :=
  ((vd_both_uv buses upper lower ++ vd_buses_uv buses upper lower).map
      fun b => (b.name, uvRow lower b),
   (vd_both_ov buses upper lower ++ vd_buses_ov buses upper lower).map
      fun b => (b.name, ovRow upper b))

/-- Helper: under a globally duplicate-free name index, a bus's name occurs in
the names of a selection of the buses iff the bus itself was selected. -/
theorem name_mem_iff {buses ls : List BusV} (hnd : (buses.map BusV.name).Nodup)
    (hsub : ∀ x ∈ ls, x ∈ buses) {b : BusV} (hb : b ∈ buses) :
    b.name ∈ ls.map BusV.name ↔ b ∈ ls := by
  constructor
  · intro h
    rcases List.mem_map.mp h with ⟨c, hc, hcn⟩
    have : c = b := List.inj_on_of_nodup_map hnd (hsub c hc) hb hcn
    exact this ▸ hc
  · exact List.mem_map_of_mem BusV.name

/-- C1: a bus checked by `voltage_diff` that has both overvoltage and
undervoltage violations (at possibly different time steps), and whose two peak
deviation magnitudes differ, appears in exactly the result set whose peak
deviation across all time steps is larger; and no bus name ever appears in
both returned result sets simultaneously. -/
theorem c1_voltage_diff_exclusive (buses : List BusV) (upper lower : List ℚ)
    (hnd : (buses.map BusV.name).Nodup) (b : BusV) (hb : b ∈ buses)
    (hov : hasOv upper b = true) (huv : hasUv lower b = true)
    (hne : ovPeak upper b ≠ uvPeak lower b) :
    (b.name ∈ (voltage_diff buses upper lower).2.map Prod.fst ↔
      uvPeak lower b < ovPeak upper b)
    ∧ (b.name ∈ (voltage_diff buses upper lower).1.map Prod.fst ↔
      ovPeak upper b < uvPeak lower b)
    ∧ (∀ n : String, ¬(n ∈ (voltage_diff buses upper lower).1.map Prod.fst
        ∧ n ∈ (voltage_diff buses upper lower).2.map Prod.fst)) := by
  have hovnames : (voltage_diff buses upper lower).2.map Prod.fst =
      (vd_both_ov buses upper lower ++ vd_buses_ov buses upper lower).map BusV.name := by
    simp only [voltage_diff]
    rw [List.map_map]
    rfl
  have huvnames : (voltage_diff buses upper lower).1.map Prod.fst =
      (vd_both_uv buses upper lower ++ vd_buses_uv buses upper lower).map BusV.name := by
    simp only [voltage_diff]
    rw [List.map_map]
    rfl
  have hsub_ov : ∀ x ∈ vd_overvoltage buses upper, x ∈ buses :=
    fun x hx => List.mem_of_mem_filter hx
  have hsub_uv : ∀ x ∈ vd_undervoltage buses lower, x ∈ buses :=
    fun x hx => List.mem_of_mem_filter hx
  have hsub_both : ∀ x ∈ vd_buses_both buses upper lower, x ∈ buses :=
    fun x hx => hsub_ov x (List.mem_of_mem_filter hx)
  have hsub_bov : ∀ x ∈ vd_both_ov buses upper lower, x ∈ buses :=
    fun x hx => hsub_both x (List.mem_of_mem_filter hx)
  have hsub_buv : ∀ x ∈ vd_both_uv buses upper lower, x ∈ buses :=
    fun x hx => hsub_both x (List.mem_of_mem_filter hx)
  have hsub_sov : ∀ x ∈ vd_buses_ov buses upper lower, x ∈ buses :=
    fun x hx => hsub_ov x (List.mem_of_mem_filter hx)
  have hsub_suv : ∀ x ∈ vd_buses_uv buses upper lower, x ∈ buses :=
    fun x hx => hsub_uv x (List.mem_of_mem_filter hx)
  have hsub_ovside : ∀ x ∈ vd_both_ov buses upper lower ++ vd_buses_ov buses upper lower,
      x ∈ buses := by
    intro x hx
    rcases List.mem_append.mp hx with h | h
    · exact hsub_bov x h
    · exact hsub_sov x h
  have hsub_uvside : ∀ x ∈ vd_both_uv buses upper lower ++ vd_buses_uv buses upper lower,
      x ∈ buses := by
    intro x hx
    rcases List.mem_append.mp hx with h | h
    · exact hsub_buv x h
    · exact hsub_suv x h
  have hb_ov : b ∈ vd_overvoltage buses upper := List.mem_filter.mpr ⟨hb, hov⟩
  have hb_uv : b ∈ vd_undervoltage buses lower := List.mem_filter.mpr ⟨hb, huv⟩
  have hb_both : b ∈ vd_buses_both buses upper lower :=
    List.mem_filter.mpr ⟨hb_ov, decide_eq_true (List.mem_map_of_mem BusV.name hb_uv)⟩
  have hb_not_sov : b ∉ vd_buses_ov buses upper lower := by
    intro hc
    have h2 := (List.mem_filter.mp hc).2
    rw [Bool.not_eq_true', decide_eq_false_iff_not] at h2
    exact h2 (List.mem_map_of_mem BusV.name hb_both)
  have hb_not_suv : b ∉ vd_buses_uv buses upper lower := by
    intro hc
    have h2 := (List.mem_filter.mp hc).2
    rw [Bool.not_eq_true', decide_eq_false_iff_not] at h2
    exact h2 (List.mem_map_of_mem BusV.name hb_both)
  refine ⟨?_, ?_, ?_⟩
  · rw [hovnames, name_mem_iff hnd hsub_ovside hb]
    constructor
    · intro h
      rcases List.mem_append.mp h with h | h
      · exact decide_eq_true_iff.mp (List.mem_filter.mp h).2
      · exact absurd h hb_not_sov
    · intro hlt
      exact List.mem_append.mpr
        (Or.inl (List.mem_filter.mpr ⟨hb_both, decide_eq_true hlt⟩))
  · rw [huvnames, name_mem_iff hnd hsub_uvside hb]
    constructor
    · intro h
      rcases List.mem_append.mp h with h | h
      · have h2 := (List.mem_filter.mp h).2
        rw [Bool.not_eq_true', decide_eq_false_iff_not] at h2
        have hnb : ¬ uvPeak lower b < ovPeak upper b := fun hlt =>
          h2 (List.mem_map_of_mem BusV.name
            (List.mem_filter.mpr ⟨hb_both, decide_eq_true hlt⟩))
        exact lt_of_le_of_ne (not_lt.mp hnb) hne
      · exact absurd h hb_not_suv
    · intro hlt
      refine List.mem_append.mpr (Or.inl (List.mem_filter.mpr ⟨hb_both, ?_⟩))
      rw [Bool.not_eq_true', decide_eq_false_iff_not]
      intro hn
      have hbov := (name_mem_iff hnd hsub_bov hb).mp hn
      have := decide_eq_true_iff.mp (List.mem_filter.mp hbov).2
      exact absurd hlt (lt_asymm this)
  · rintro n ⟨h1, h2⟩
    rw [huvnames] at h1
    rw [hovnames] at h2
    rcases List.mem_map.mp h1 with ⟨c, hc, hcn⟩
    rcases List.mem_map.mp h2 with ⟨d, hd, hdn⟩
    have hcd : c = d :=
      List.inj_on_of_nodup_map hnd (hsub_uvside c hc) (hsub_ovside d hd)
        (hcn.trans hdn.symm)
    subst hcd
    rcases List.mem_append.mp hc with hcuv | hcuv <;>
        rcases List.mem_append.mp hd with hdov | hdov
    · have h3 := (List.mem_filter.mp hcuv).2
      rw [Bool.not_eq_true', decide_eq_false_iff_not] at h3
      exact h3 (List.mem_map_of_mem BusV.name hdov)
    · have h3 := (List.mem_filter.mp hdov).2
      rw [Bool.not_eq_true', decide_eq_false_iff_not] at h3
      exact h3 (List.mem_map_of_mem BusV.name (List.mem_of_mem_filter hcuv))
    · have h3 := (List.mem_filter.mp hcuv).2
      rw [Bool.not_eq_true', decide_eq_false_iff_not] at h3
      exact h3 (List.mem_map_of_mem BusV.name (List.mem_of_mem_filter hdov))
    · have h3 := (List.mem_filter.mp hcuv).2
      rw [Bool.not_eq_true', decide_eq_false_iff_not] at h3
      have hcboth : c ∈ vd_buses_both buses upper lower :=
        List.mem_filter.mpr ⟨List.mem_of_mem_filter hdov,
          decide_eq_true (List.mem_map_of_mem BusV.name (List.mem_of_mem_filter hcuv))⟩
      exact h3 (List.mem_map_of_mem BusV.name hcboth)

/-- Witness for C1: the single bus `b` with voltage series `[0.8, 1.3]` against
limits upper `1.1` / lower `0.9` violates both bounds; its overvoltage peak
`0.2` beats its undervoltage peak `0.1`, so it lands in the overvoltage result
set only. -/
theorem c1_voltage_diff_exclusive_witness :
    ("b" ∈ (voltage_diff [⟨"b", [8/10, 13/10]⟩] [11/10, 11/10]
        [9/10, 9/10]).2.map Prod.fst)
    ∧ ¬("b" ∈ (voltage_diff [⟨"b", [8/10, 13/10]⟩] [11/10, 11/10]
        [9/10, 9/10]).1.map Prod.fst) := by
  have h := c1_voltage_diff_exclusive [⟨"b", [8/10, 13/10]⟩] [11/10, 11/10]
    [9/10, 9/10] (by decide) ⟨"b", [8/10, 13/10]⟩ (by simp)
    (by norm_num [hasOv]) (by norm_num [hasUv])
    (by norm_num [ovPeak, uvPeak, ovRow, uvRow, listMax, max_def])
  refine ⟨h.1.mpr ?_, fun hm => absurd (h.2.1.mp hm) ?_⟩
  · norm_num [ovPeak, uvPeak, ovRow, uvRow, listMax, max_def]
  · norm_num [ovPeak, uvPeak, ovRow, uvRow, listMax, max_def]

/-- Pandas `Series.min`/`Series.idxmin` over an indexed list, as a fold that
keeps the entry with the strictly smaller value, so ties keep the earliest
index. -/
def argminFold (ps : List (ℕ × ℚ)) (acc : ℕ × ℚ) : ℕ × ℚ :=
  ps.foldl (fun a p => if p.2 < a.2 then p else a) acc

/-- Helper: the fold result is the start value or one of the list entries. -/
theorem argminFold_mem (ps : List (ℕ × ℚ)) : ∀ acc : ℕ × ℚ,
    argminFold ps acc = acc ∨ argminFold ps acc ∈ ps := by
  induction ps with
  | nil => intro acc; exact Or.inl rfl
  | cons p ps ih =>
    intro acc
    have h0 : argminFold (p :: ps) acc
        = argminFold ps (if p.2 < acc.2 then p else acc) := rfl
    rw [h0]
    rcases ih (if p.2 < acc.2 then p else acc) with h | h
    · rw [h]
      by_cases hc : p.2 < acc.2
      · rw [if_pos hc]; exact Or.inr (List.mem_cons_self _ _)
      · rw [if_neg hc]; exact Or.inl rfl
    · exact Or.inr (List.mem_cons_of_mem _ h)

/-- Helper: the fold result's value is a lower bound of the start value and of
all list values. -/
theorem argminFold_le (ps : List (ℕ × ℚ)) : ∀ acc : ℕ × ℚ,
    (argminFold ps acc).2 ≤ acc.2 ∧ ∀ p ∈ ps, (argminFold ps acc).2 ≤ p.2 := by
  induction ps with
  | nil => intro acc; exact ⟨le_refl _, by simp⟩
  | cons p ps ih =>
    intro acc
    have h0 : argminFold (p :: ps) acc
        = argminFold ps (if p.2 < acc.2 then p else acc) := rfl
    by_cases hc : p.2 < acc.2
    · rw [h0, if_pos hc]
      rcases ih p with ⟨h1, h2⟩
      refine ⟨le_trans h1 (le_of_lt hc), ?_⟩
      intro q hq
      rcases List.mem_cons.mp hq with h | h
      · rw [h]; exact h1
      · exact h2 q h
    · rw [h0, if_neg hc]
      rcases ih acc with ⟨h1, h2⟩
      refine ⟨h1, ?_⟩
      intro q hq
      rcases List.mem_cons.mp hq with h | h
      · rw [h]; exact le_trans h1 (not_lt.mp hc)
      · exact h2 q h

/-- Embedding of `_station_allowed_load`: the summed transformer rating of the
station times the per-time-step transformer load factor of the time step's
case. -/
def _station_allowed_load (s_noms : List ℚ) (cfg : LFConfig)
    (ts_cases : List Case) : List ℚ :=
  ts_cases.map fun c => s_noms.sum * trafoFactor cfg c

/-- Residual apparent power `s_res = s_station_allowed - s_station_pfa` per
time step (negative entries mean the station is over-loaded). -/
def station_residuals (s_noms : List ℚ) (cfg : LFConfig) (ts_cases : List Case)
    (s_station_pfa : List ℚ) : List ℚ :=
  List.zipWith (fun a p => a - p) (_station_allowed_load s_noms cfg ts_cases)
    s_station_pfa

/-- The `s_missing` series of `_station_overload`: keep the time steps with a
negative residual (`s_res = s_res[s_res < 0]`) and divide each residual by
that time step's transformer load factor. -/
def station_s_missing (s_noms : List ℚ) (cfg : LFConfig) (ts_cases : List Case)
    (s_station_pfa : List ℚ) : List (ℕ × ℚ) :=
  ((((station_residuals s_noms cfg ts_cases s_station_pfa).zip
      (ts_cases.map (trafoFactor cfg))).enum.filter
        fun p => decide (p.2.1 < 0)).map fun p => (p.1, p.2.1 / p.2.2))

/-- Embedding of the report built by `_station_overload` once the station
loading `s_station_pfa` has been extracted from the power-flow results:
`none` is the empty report, otherwise the single row
`(abs(s_missing.min()), s_missing.idxmin())`. -/
def _station_overload_core (s_noms : List ℚ) (cfg : LFConfig)
    (ts_cases : List Case) (s_station_pfa : List ℚ) : Option (ℚ × ℕ) :=
  match station_s_missing s_noms cfg ts_cases s_station_pfa with
  | [] => none
  | m :: ms => some (|(argminFold ms m).2|, (argminFold ms m).1)

/-- Helper: the entries of the `s_missing` series are exactly the violating
time steps paired with their residual-over-load-factor quotient. -/
theorem mem_station_s_missing (s_noms : List ℚ) (cfg : LFConfig)
    (ts_cases : List Case) (pfa : List ℚ) (hlen : pfa.length = ts_cases.length)
    (t : ℕ) (r : ℚ) :
    (t, r) ∈ station_s_missing s_noms cfg ts_cases pfa ↔
      t < (station_residuals s_noms cfg ts_cases pfa).length
      ∧ (station_residuals s_noms cfg ts_cases pfa).getD t 0 < 0
      ∧ r = (station_residuals s_noms cfg ts_cases pfa).getD t 0
          / trafoFactor cfg (ts_cases.getD t Case.load_case) := by
  set res := station_residuals s_noms cfg ts_cases pfa with hres_def
  set lfs := ts_cases.map (trafoFactor cfg) with hlfs_def
  have hres : res.length = ts_cases.length := by
    simp [hres_def, station_residuals, _station_allowed_load, hlen]
  have hlfs : lfs.length = ts_cases.length := by simp [hlfs_def]
  have hzip : (res.zip lfs).length = res.length := by
    simp [List.length_zip, hres, hlfs]
  constructor
  · intro h
    rcases List.mem_map.mp h with ⟨p, hp, hpe⟩
    rcases List.mem_filter.mp hp with ⟨hpm, hpneg⟩
    rcases List.mem_iff_getElem.mp hpm with ⟨i, hi, hie⟩
    have hia : i < (res.zip lfs).length := by
      simpa only [List.enum_length] using hi
    have hiz : i < res.length := hzip ▸ hia
    have hizl : i < lfs.length := by rw [hlfs, ← hres]; exact hiz
    have hib : p = (i, (res.zip lfs)[i]) := by
      rw [← hie]; exact (List.getElem_enum _ _ _)
    have hgz : (res.zip lfs)[i] = (res[i], lfs[i]) := List.getElem_zip
    have hti : t = i := by
      have h2 := congrArg Prod.fst hpe
      simp only [hib, hgz] at h2
      exact h2.symm
    subst hti
    have hitc : t < ts_cases.length := hres ▸ hiz
    have hlfv : lfs[t] = trafoFactor cfg (ts_cases.getD t Case.load_case) := by
      rw [List.getD_eq_getElem ts_cases Case.load_case hitc]
      exact List.getElem_map _
    have hrv : r = res[t] / lfs[t] := by
      have h2 := congrArg Prod.snd hpe
      simp only [hib, hgz] at h2
      exact h2.symm
    have hneg2 : res[t] < 0 := by
      have h2 := hpneg
      simp only [hib, hgz, decide_eq_true_iff] at h2
      exact h2
    refine ⟨hiz, ?_, ?_⟩
    · rwa [List.getD_eq_getElem res 0 hiz]
    · rw [List.getD_eq_getElem res 0 hiz, ← hlfv]; exact hrv
  · rintro ⟨ht, hneg, hr⟩
    have htc : t < ts_cases.length := hres ▸ ht
    have htl : t < lfs.length := by rw [hlfs, ← hres]; exact ht
    have hte : t < (res.zip lfs).enum.length := by
      simpa only [List.enum_length, hzip] using ht
    have hmem : (t, (res[t], lfs[t])) ∈ (res.zip lfs).enum := by
      refine List.mem_iff_getElem.mpr ⟨t, hte, ?_⟩
      rw [List.getElem_enum]
      congr 1
      exact List.getElem_zip
    have hlfv : lfs[t] = trafoFactor cfg (ts_cases.getD t Case.load_case) := by
      rw [List.getD_eq_getElem ts_cases Case.load_case htc]
      exact List.getElem_map _
    refine List.mem_map.mpr ⟨(t, (res[t], lfs[t])), List.mem_filter.mpr ⟨hmem, ?_⟩, ?_⟩
    · simpa [decide_eq_true_iff] using (List.getD_eq_getElem res 0 ht ▸ hneg)
    · show (t, res[t] / lfs[t]) = (t, r)
      rw [hr, List.getD_eq_getElem res 0 ht, ← hlfv]

/-- C3 (amended): when some time step's residual `allowed − realized` is
negative, the station overload check reports a single row `(s_missing,
time_index)` with non-negative `s_missing` equal to the absolute value of the
residual-over-load-factor quotient at the reported time step, the reported
time step is over-loaded, and the quotient magnitude at the reported time
step bounds the quotient magnitudes of all over-loaded time steps (the code
minimises `residual / load_factor`, not the residual alone). -/
theorem c3_station_overload_amended (s_noms : List ℚ) (cfg : LFConfig)
    (ts_cases : List Case) (pfa : List ℚ)
    (hlen : pfa.length = ts_cases.length)
    (hlf : ∀ c, 0 < trafoFactor cfg c)
    (t0 : ℕ) (ht0 : t0 < (station_residuals s_noms cfg ts_cases pfa).length)
    (hneg0 : (station_residuals s_noms cfg ts_cases pfa).getD t0 0 < 0) :
    ∃ v tw, _station_overload_core s_noms cfg ts_cases pfa = some (v, tw)
      ∧ 0 ≤ v
      ∧ tw < (station_residuals s_noms cfg ts_cases pfa).length
      ∧ (station_residuals s_noms cfg ts_cases pfa).getD tw 0 < 0
      ∧ v = -((station_residuals s_noms cfg ts_cases pfa).getD tw 0
          / trafoFactor cfg (ts_cases.getD tw Case.load_case))
      ∧ (∀ t, t < (station_residuals s_noms cfg ts_cases pfa).length →
          (station_residuals s_noms cfg ts_cases pfa).getD t 0 < 0 →
          -((station_residuals s_noms cfg ts_cases pfa).getD t 0
              / trafoFactor cfg (ts_cases.getD t Case.load_case)) ≤ v) := by
  have hmem0 : (t0, (station_residuals s_noms cfg ts_cases pfa).getD t0 0
      / trafoFactor cfg (ts_cases.getD t0 Case.load_case))
      ∈ station_s_missing s_noms cfg ts_cases pfa :=
    (mem_station_s_missing s_noms cfg ts_cases pfa hlen t0 _).mpr ⟨ht0, hneg0, rfl⟩
  cases hsm : station_s_missing s_noms cfg ts_cases pfa with
  | nil => rw [hsm] at hmem0; cases hmem0
  | cons m ms =>
    have hcore : _station_overload_core s_noms cfg ts_cases pfa
        = some (|(argminFold ms m).2|, (argminFold ms m).1) := by
      unfold _station_overload_core
      rw [hsm]
    have hwmem : argminFold ms m ∈ station_s_missing s_noms cfg ts_cases pfa := by
      rw [hsm]
      rcases argminFold_mem ms m with h | h
      · rw [h]; exact List.mem_cons_self _ _
      · exact List.mem_cons_of_mem _ h
    have hwle : ∀ q ∈ station_s_missing s_noms cfg ts_cases pfa,
        (argminFold ms m).2 ≤ q.2 := by
      intro q hq
      rw [hsm] at hq
      rcases List.mem_cons.mp hq with h | h
      · rw [h]; exact (argminFold_le ms m).1
      · exact (argminFold_le ms m).2 q h
    obtain ⟨htw, hnegw, hvw⟩ :=
      (mem_station_s_missing s_noms cfg ts_cases pfa hlen
        (argminFold ms m).1 (argminFold ms m).2).mp (by
          have : ((argminFold ms m).1, (argminFold ms m).2) = argminFold ms m := rfl
          rw [this]; exact hwmem)
    have hqneg : (argminFold ms m).2 < 0 := by
      rw [hvw]
      exact div_neg_of_neg_of_pos hnegw (hlf _)
    refine ⟨|(argminFold ms m).2|, (argminFold ms m).1, hcore, abs_nonneg _,
      htw, hnegw, ?_, ?_⟩
    · rw [abs_of_neg hqneg, hvw]
    · intro t ht hneg
      have hqt : (t, (station_residuals s_noms cfg ts_cases pfa).getD t 0
          / trafoFactor cfg (ts_cases.getD t Case.load_case))
          ∈ station_s_missing s_noms cfg ts_cases pfa :=
        (mem_station_s_missing s_noms cfg ts_cases pfa hlen t _).mpr ⟨ht, hneg, rfl⟩
      have := hwle _ hqt
      rw [abs_of_neg hqneg]
      exact neg_le_neg this

/-- Counterexample for C3 as stated: station with a single transformer of
rating 1, load-case factor 1, feed-in-case factor 0.5, loading 2 MVA in the
load-case step and 1.4 MVA in the feed-in step.  The residuals are
`[-1, -0.9]`, so the minimum residual is `-1` at time step 0 whose factor is
1, and the claim predicts `s_missing = |−1| / 1 = 1` at time 0; the code
instead minimises the quotients `[-1, -1.8]` and reports `s_missing = 1.8`
at time step 1. -/
theorem c3_station_overload_counterexample :
    _station_overload_core [1] ⟨1, 1, 1, 1/2⟩ [Case.load_case, Case.feedin_case]
        [2, 14/10] = some (9/5, 1)
    ∧ station_residuals [1] ⟨1, 1, 1, 1/2⟩ [Case.load_case, Case.feedin_case]
        [2, 14/10] = [-1, -9/10]
    ∧ (9 : ℚ)/5 ≠ |(-1 : ℚ)| / trafoFactor ⟨1, 1, 1, 1/2⟩ Case.load_case
    ∧ (1 : ℕ) ≠ 0 := by
  refine ⟨?_, ?_, ?_, by norm_num⟩
  · norm_num [_station_overload_core, station_s_missing, station_residuals,
      _station_allowed_load, trafoFactor, argminFold, List.enum, List.enumFrom,
      List.filter]
  · norm_num [station_residuals, _station_allowed_load, trafoFactor]
  · norm_num [trafoFactor]

/-- Witness for the amended C3 at the counterexample input: the check reports
a row with a non-negative missing capacity. -/
theorem c3_station_overload_amended_witness :
    ∃ v tw, _station_overload_core [1] ⟨1, 1, 1, 1/2⟩
        [Case.load_case, Case.feedin_case] [2, 14/10] = some (v, tw) ∧ 0 ≤ v := by
  obtain ⟨v, tw, h1, h2, -, -, -, -⟩ :=
    c3_station_overload_amended [1] ⟨1, 1, 1, 1/2⟩ [Case.load_case, Case.feedin_case]
      [2, 14/10] rfl (fun c => by cases c <;> norm_num [trafoFactor]) 0
      (by norm_num [station_residuals, _station_allowed_load, trafoFactor])
      (by norm_num [station_residuals, _station_allowed_load, trafoFactor])
  exact ⟨v, tw, h1, h2⟩

/-- Pandas `Series.idxmax` over an indexed list, as a fold that keeps the
entry with the strictly larger value, so ties keep the earliest index. -/
def argmaxFold (ps : List (ℕ × ℚ)) (acc : ℕ × ℚ) : ℕ × ℚ :=
  ps.foldl (fun a p => if a.2 < p.2 then p else a) acc

/-- First index of the row maximum (`df.idxmax(axis=1)`); `0` as junk value
on the empty row. -/
def listArgmax : List ℚ → ℕ
  | [] => 0
  | x :: xs => (argmaxFold (xs.enum.map fun p => (p.1 + 1, p.2)) (0, x)).1

/-- A row of the violation report of `_voltage_deviation`: the bus name (the
index of the report), its maximum deviation `v_diff_max` and the time step
`time_index` that deviation occurs at. -/
structure CritBus where
  name : String
  v_diff_max : ℚ
  time_index : ℕ
deriving DecidableEq, Repr

/-- Embedding of the local `_append_crit_buses` of `_voltage_deviation`:
reduce each bus's deviation row to `(df.max(axis=1), df.idxmax(axis=1))`. -/
def _append_crit_buses (rows : List (String × List ℚ)) : List CritBus :=
  rows.map fun r => ⟨r.1, listMax r.2, listArgmax r.2⟩

/-- Descending comparison on report rows used by
`sort_values(by=["v_diff_max"], ascending=False)`. -/
def critGE (a b : CritBus) : Prop := b.v_diff_max ≤ a.v_diff_max

instance : DecidableRel critGE := fun a b =>
  inferInstanceAs (Decidable (b.v_diff_max ≤ a.v_diff_max))

instance : IsTotal CritBus critGE := ⟨fun a b => le_total b.v_diff_max a.v_diff_max⟩

instance : IsTrans CritBus critGE := ⟨fun _ _ _ h1 h2 => le_trans h2 h1⟩

/-- Embedding of `_voltage_deviation`: build the overvoltage report rows, then
the undervoltage report rows, from the two `voltage_diff` frames, and sort the
result descending by `v_diff_max`.  The pandas sort (`sort_values`, default
quicksort) is modelled by a comparison sort on the same key; the sortedness
and multiset content proved below hold for any comparison sort and no tie
order is relied upon. -/
def _voltage_deviation (buses : List BusV) (upper lower : List ℚ) : List CritBus :=
  List.insertionSort critGE
    (_append_crit_buses (voltage_diff buses upper lower).2
      ++ _append_crit_buses (voltage_diff buses upper lower).1)

/-- C4 (amended): every report produced by the voltage deviation detector is
sorted in non-increasing (descending) order of `v_diff_max` and is a
permutation of the unsorted violation rows; the order of rows with equal
`v_diff_max` is whatever the sorting algorithm produces (pandas' default
quicksort is not stable), so no tie rule is asserted. -/
theorem c4_voltage_deviation_sorted (buses : List BusV) (upper lower : List ℚ) :
    (_voltage_deviation buses upper lower).Pairwise
        (fun a b => b.v_diff_max ≤ a.v_diff_max)
    ∧ (_voltage_deviation buses upper lower).Perm
        (_append_crit_buses (voltage_diff buses upper lower).2
          ++ _append_crit_buses (voltage_diff buses upper lower).1) := by
  constructor
  · exact List.sorted_insertionSort critGE _
  · exact List.perm_insertionSort critGE _

/-- Counterexample for C4 as stated: two buses `a`, `b`, both at 1.2 p.u.
against an upper limit of 1.1 p.u., produce report rows with the equal
deviation 0.1, so the report is not sorted *strictly* descending. -/
theorem c4_voltage_deviation_counterexample :
    ¬ ((_voltage_deviation [⟨"a", [12/10]⟩, ⟨"b", [12/10]⟩] [11/10] [9/10]).Pairwise
        fun a b => b.v_diff_max < a.v_diff_max) := by
  have heval : _voltage_deviation [⟨"a", [12/10]⟩, ⟨"b", [12/10]⟩] [11/10] [9/10]
      = [⟨"a", 1/10, 0⟩, ⟨"b", 1/10, 0⟩] := by
    simp +decide [_voltage_deviation, voltage_diff, vd_both_ov, vd_both_uv,
      vd_buses_ov, vd_buses_uv, vd_buses_both, vd_overvoltage, vd_undervoltage,
      hasOv, hasUv, uvPeak, ovPeak, uvRow, ovRow, listMax, _append_crit_buses,
      listArgmax, argmaxFold, List.insertionSort, List.orderedInsert, critGE,
      List.filter, List.enum, List.enumFrom]
    norm_num
    intro hc
    exact absurd (by norm_num [critGE]) hc
  rw [heval]
  intro h
  rcases List.pairwise_cons.mp h with ⟨h1, -⟩
  have h2 := h1 _ (List.mem_cons_self _ _)
  norm_num at h2

/-- Errors raised by the checks, named after the exceptions they model:
`noResults` is the `"No power flow results to check over-load for"` exception
of `_line_overload`, `mvNotIncluded` the `"MV was not included in power flow
analysis"` error of `_station_load`, `keyError` the pandas `KeyError` raised
by selecting missing result columns (`results.s_res.loc[:, ...]`), and
`invalidArg` the `ValueError` for an unrecognised `voltage_level` string. -/
inductive PFError where
  | noResults
  | mvNotIncluded
  | keyError
  | invalidArg
deriving DecidableEq, Repr

/-- The power-flow result set: the number of solved time steps and the
per-element result tables `i_res` and `s_res` (name, series of length `nT`).
The result set of a never-run power flow is `⟨0, [], []⟩`. -/
structure PFResults where
  nT : ℕ
  i_res : List (String × List ℚ)
  s_res : List (String × List ℚ)
deriving DecidableEq, Repr

/-- Pandas `DataFrame.empty` for the modelled `i_res`: a frame with no
columns or no rows has no elements. -/
def PFResults.iResEmpty (res : PFResults) : Bool :=
  res.i_res.isEmpty || res.nT == 0

/-- Topology and configuration data consumed by the line checks: all lines of
the network, the names of the MV grid's lines, the ring buses, and the
load-factor configuration of each voltage level. -/
structure LineTopology where
  allLines : List Line
  mvLineNames : List String
  buses_in_cycles : List String
  mvCfg : LFConfig
  lvCfg : LFConfig

/-- The MV grid's lines (`topology.mv_grid.lines_df`). -/
def LineTopology.mvLines (topo : LineTopology) : List Line :=
  topo.allLines.filter fun l => decide (l.name ∈ topo.mvLineNames)

/-- The LV lines: `topology.lines_df` without the MV grid's lines
(`~lines_df.index.isin(mv_grid.lines_df.index)`). -/
def LineTopology.lvLines (topo : LineTopology) : List Line :=
  topo.allLines.filter fun l => !decide (l.name ∈ topo.mvLineNames)

/-- Embedding of `lines_allowed_load`: per time step, the LV allowed-load
table concatenated with the MV one (`pd.concat([lv, mv], axis=1)`). -/
def lines_allowed_load (topo : LineTopology) (ts_cases : List Case) :
    List (List (String × ℚ)) :=
  ts_cases.map fun c =>
    allowed_load_per_case topo.lvLines topo.buses_in_cycles (lineFactor topo.lvCfg c)
      ++ allowed_load_per_case topo.mvLines topo.buses_in_cycles (lineFactor topo.mvCfg c)

/-- Embedding of `lines_relative_load` for the named lines: per line and time
step, the realized apparent power `s_res` divided by the allowed load. -/
def lines_relative_load (res : PFResults) (topo : LineTopology)
    (ts_cases : List Case) (lineNames : List String) : List (String × List ℚ) :=
  lineNames.map fun n =>
    (n, (List.range res.nT).map fun t =>
      ((res.s_res.lookup n).getD []).getD t 0
        / (((lines_allowed_load topo ts_cases).getD t []).lookup n).getD 0)

/-- A row of the line overload report built by `_line_overload`. -/
structure CritLine where
  name : String
  max_rel_overload : ℚ
  time_index : ℕ
  voltage_level : String
deriving DecidableEq, Repr

/-- Embedding of `_line_overload`: raise the no-results exception when `i_res`
is empty, otherwise keep the lines whose relative load exceeds 1 somewhere and
report each one's maximum relative load and the time step attaining it. -/
def _line_overload (res : PFResults) (topo : LineTopology) (ts_cases : List Case)
    (voltage_level : String) : Except PFError (List CritLine) :=
  if res.iResEmpty then .error .noResults
  else if voltage_level == "lv" ∨ voltage_level == "mv" then
    let lines := if voltage_level == "lv" then topo.lvLines.map Line.name
      else topo.mvLines.map Line.name
    let rel := lines_relative_load res topo ts_cases lines
    .ok ((rel.filter fun r => decide (1 < listMax r.2)).map fun r =>
      ⟨r.1, listMax r.2, listArgmax r.2, voltage_level⟩)
  else .error .invalidArg

/-- LV branch of `_station_load`: sum of the station's transformer columns of
`s_res` per time step (`results.s_res.loc[:, transformers_df.index].sum(axis=1)`);
pandas raises a `KeyError` when a requested column is missing, in particular
on an empty result set. -/
def _station_load_lv (res : PFResults) (trafoNames : List String) :
    Except PFError (List ℚ) :=
  if trafoNames.all fun n => decide (n ∈ res.s_res.map Prod.fst) then
    .ok ((List.range res.nT).map fun t =>
      (trafoNames.map fun n => ((res.s_res.lookup n).getD []).getD t 0).sum)
  else .error .keyError

/-- MV (HV/MV) branch of `_station_load`: first check that some MV line occurs
among the `i_res` columns, else raise `"MV was not included in power flow
analysis"`.  The slack apparent-power series `np.hypot(pfa_slack.p,
pfa_slack.q)` is supplied as the input `slack_s`, a square root having no
exact rational embedding. -/
def _station_load_mv (res : PFResults) (mvLineNames : List String)
    (slack_s : List ℚ) : Except PFError (List ℚ) :=
  if !(mvLineNames.any fun n => decide (n ∈ res.i_res.map Prod.fst)) then
    .error .mvNotIncluded
  else .ok slack_s

/-- Embedding of `_station_overload` for an LV grid: extract the station
loading from the results (which can raise), then build the overload report. -/
def _station_overload_lv (res : PFResults) (trafoNames : List String)
    (s_noms : List ℚ) (cfg : LFConfig) (ts_cases : List Case) :
    Except PFError (Option (ℚ × ℕ)) :=
  match _station_load_lv res trafoNames with
  | .error e => .error e
  | .ok pfa => .ok (_station_overload_core s_noms cfg ts_cases pfa)

/-- Embedding of `_station_overload` for the MV grid (HV/MV station). -/
def _station_overload_mv (res : PFResults) (mvLineNames : List String)
    (slack_s : List ℚ) (s_noms : List ℚ) (cfg : LFConfig) (ts_cases : List Case) :
    Except PFError (Option (ℚ × ℕ)) :=
  match _station_load_mv res mvLineNames slack_s with
  | .error e => .error e
  | .ok pfa => .ok (_station_overload_core s_noms cfg ts_cases pfa)

/-- C6 (amended): on the empty result set, the line overload check raises the
no-results error, and the station overload check also fails rather than
returning a (possibly empty) report — but with a different error: a pandas
`KeyError` for an LV grid (any station with at least one transformer) and the
"MV was not included in power flow analysis" error for the MV grid — not the
no-results error. -/
theorem c6_no_results_amended (res : PFResults) (topo : LineTopology)
    (ts_cases : List Case) (vl : String) (trafoNames : List String)
    (s_noms : List ℚ) (cfg : LFConfig) (mvLineNames : List String)
    (slack_s : List ℚ) (hempty : res = ⟨0, [], []⟩) (htr : trafoNames ≠ []) :
    _line_overload res topo ts_cases vl = .error .noResults
    ∧ _station_overload_lv res trafoNames s_noms cfg ts_cases = .error .keyError
    ∧ _station_overload_mv res mvLineNames slack_s s_noms cfg ts_cases
        = .error .mvNotIncluded := by
  subst hempty
  refine ⟨?_, ?_, ?_⟩
  · simp [_line_overload, PFResults.iResEmpty]
  · rcases trafoNames with _ | ⟨n, rest⟩
    · exact absurd rfl htr
    · simp [_station_overload_lv, _station_load_lv]
  · simp [_station_overload_mv, _station_load_mv]

/-- Counterexample for C6 as stated: on the empty result set, the station
overload check of an LV grid with one transformer `t1` fails with the pandas
`KeyError` and the MV check fails with the MV-not-included error — neither
fails with the no-results error the claim requires. -/
theorem c6_no_results_counterexample :
    _station_overload_lv ⟨0, [], []⟩ ["t1"] [1] ⟨1, 1, 1, 1⟩ []
        = .error PFError.keyError
    ∧ _station_overload_mv ⟨0, [], []⟩ ["ml"] [] [1] ⟨1, 1, 1, 1⟩ []
        = .error PFError.mvNotIncluded
    ∧ PFError.keyError ≠ PFError.noResults
    ∧ PFError.mvNotIncluded ≠ PFError.noResults := by
  refine ⟨?_, ?_, by decide, by decide⟩
  · simp [_station_overload_lv, _station_load_lv]
  · simp [_station_overload_mv, _station_load_mv]

/-- Witness for the amended C6 at a concrete empty result set. -/
theorem c6_no_results_amended_witness :
    _line_overload ⟨0, [], []⟩ ⟨[], [], [], ⟨1, 1, 1, 1⟩, ⟨1, 1, 1, 1⟩⟩ [] "mv"
        = .error PFError.noResults
    ∧ _station_overload_lv ⟨0, [], []⟩ ["t2"] [1] ⟨1, 1, 1, 1⟩ []
        = .error PFError.keyError := by
  have h := c6_no_results_amended ⟨0, [], []⟩ ⟨[], [], [], ⟨1, 1, 1, 1⟩, ⟨1, 1, 1, 1⟩⟩
    [] "mv" ["t2"] [1] ⟨1, 1, 1, 1⟩ [] [] rfl (by simp)
  exact ⟨h.1, h.2.1⟩

/-- A row of the pypsa transformers frame handled by
`aggregate_parallel_transformers`: name (the index), endpoint buses and the
`r`, `x`, `s_nom` columns. -/
structure Trafo where
  name : String
  bus0 : String
  bus1 : String
  r : ℚ
  x : ℚ
  s_nom : ℚ
deriving DecidableEq, Repr

/-- Modelled from the spec: `calculate_impedance_for_parallel_components`
(module `edisgo.tools.tools`, not among the analysed sources) — the "parallel
impedance combination formula": the equivalent impedance of parallel
components is the complex reciprocal of the sum of the reciprocals of their
`r + jx` impedances, and the apparent-power ratings add. -/
def calculate_impedance_for_parallel_components (comps : List (ℚ × ℚ × ℚ)) :
    ℚ × ℚ × ℚ :=
  let y := comps.foldl (fun acc c =>
    let d := c.1 ^ 2 + c.2.1 ^ 2
    (acc.1 + c.1 / d, acc.2 - c.2.1 / d)) ((0 : ℚ), (0 : ℚ))
  let d := y.1 ^ 2 + y.2 ^ 2
  (y.1 / d, -y.2 / d, (comps.map fun c => c.2.2).sum)

/-- Python's `index[:-2]` applied to a name: drop the last two characters. -/
def truncName (s : String) : String := String.mk s.toList.dropLast.dropLast

/-- Pandas `psa_trafos[~psa_trafos.index.duplicated(keep="first")]`: keep the
first row of each name; `seen` accumulates the names already kept. -/
def dedupByName (seen : List String) : List Trafo → List Trafo
  | [] => []
  | t :: ts =>
    if t.name ∈ seen then dedupByName seen ts
    else t :: dedupByName (t.name :: seen) ts

/-- Embedding of `aggregate_parallel_transformers`: `trafo_df` groups the
transformers by `(bus0, bus1)` and combines each group's `r`, `x`, `s_nom` in
parallel; every transformer name is truncated by two characters and duplicated
truncated names are dropped keeping the first; the final
`merge(trafo_df, how="left")`, keying on `(bus0, bus1)`, gives every kept row
the combined values of its bus pair. -/
def aggregate_parallel_transformers (psa_trafos : List Trafo) : List Trafo :=
  (dedupByName [] (psa_trafos.map fun t => { t with name := truncName t.name })).map
    fun t =>
      let c := calculate_impedance_for_parallel_components
        ((psa_trafos.filter fun u => decide (u.bus0 = t.bus0 ∧ u.bus1 = t.bus1)).map
          fun u => (u.r, u.x, u.s_nom))
      { t with r := c.1, x := c.2.1, s_nom := c.2.2 }

/-- Helper: the parallel combination of a single component with non-degenerate
impedance is that component. -/
theorem parallel_singleton (r x s : ℚ) (h : r ^ 2 + x ^ 2 ≠ 0) :
    calculate_impedance_for_parallel_components [(r, x, s)] = (r, x, s) := by
  have hd : ((0 : ℚ) + r / (r ^ 2 + x ^ 2)) ^ 2 + ((0 : ℚ) - x / (r ^ 2 + x ^ 2)) ^ 2
      = 1 / (r ^ 2 + x ^ 2) := by
    field_simp
    ring
  simp only [calculate_impedance_for_parallel_components, List.foldl_cons,
    List.foldl_nil, List.map_cons, List.map_nil, List.sum_cons, List.sum_nil,
    Prod.mk.injEq]
  rw [hd]
  refine ⟨?_, ?_, by ring⟩
  · rw [one_div, div_eq_mul_inv, inv_inv]
    field_simp
  · rw [one_div, div_eq_mul_inv, inv_inv]
    field_simp

/-- Helper: filtering a bus-pair-duplicate-free transformer list by the pair of
one of its members yields exactly that member. -/
theorem filter_pair_eq_singleton (ts : List Trafo)
    (hpair : (ts.map fun t => (t.bus0, t.bus1)).Nodup) (t : Trafo) (ht : t ∈ ts) :
    ts.filter (fun u => decide (u.bus0 = t.bus0 ∧ u.bus1 = t.bus1)) = [t] := by
  induction ts with
  | nil => cases ht
  | cons a as ih =>
    simp only [List.map_cons, List.nodup_cons] at hpair
    rcases List.mem_cons.mp ht with h | h
    · subst h
      rw [List.filter_cons, if_pos (by simp)]
      have hnil : as.filter (fun u => decide (u.bus0 = t.bus0 ∧ u.bus1 = t.bus1)) = [] := by
        rw [List.filter_eq_nil_iff]
        intro u hu
        simp only [decide_eq_true_iff]
        intro hc
        exact hpair.1 (by
          rw [show ((t.bus0, t.bus1) : String × String) = (u.bus0, u.bus1) by
            rw [hc.1, hc.2]]
          exact List.mem_map_of_mem _ hu)
      rw [hnil]
    · have hne : ¬(a.bus0 = t.bus0 ∧ a.bus1 = t.bus1) := by
        intro hc
        exact hpair.1 (by
          rw [show ((a.bus0, a.bus1) : String × String) = (t.bus0, t.bus1) by
            rw [hc.1, hc.2]]
          exact List.mem_map_of_mem _ h)
      rw [List.filter_cons, if_neg (by simpa using hne)]
      exact ih hpair.2 h

/-- Helper: removing duplicated names from a list whose names are distinct and
disjoint from the already-seen names changes nothing. -/
theorem dedupByName_eq_self : ∀ (ts : List Trafo) (seen : List String),
    (ts.map Trafo.name).Nodup → (∀ t ∈ ts, t.name ∉ seen) →
    dedupByName seen ts = ts := by
  intro ts
  induction ts with
  | nil => intro seen _ _; rfl
  | cons a as ih =>
    intro seen hnd hdis
    simp only [List.map_cons, List.nodup_cons] at hnd
    rw [dedupByName, if_neg (hdis a (List.mem_cons_self _ _))]
    congr 1
    refine ih _ hnd.2 ?_
    intro t htm
    simp only [List.mem_cons, not_or]
    constructor
    · intro he
      exact hnd.1 (he ▸ List.mem_map_of_mem Trafo.name htm)
    · exact hdis t (List.mem_cons_of_mem _ htm)

/-- C7 (amended): parallel-transformer aggregation is not idempotent — every
application truncates two further characters off every transformer name — but
on an already-aggregated table (each bus pair held by exactly one row, with
non-degenerate impedances and distinct truncated names) a second application
changes only the names, truncating each by two more characters, and preserves
every row's buses, `r`, `x` and `s_nom`. -/
theorem c7_aggregate_amended (ts : List Trafo)
    (hpair : (ts.map fun t => (t.bus0, t.bus1)).Nodup)
    (hz : ∀ t ∈ ts, t.r ^ 2 + t.x ^ 2 ≠ 0)
    (hnm : (ts.map fun t => truncName t.name).Nodup) :
    aggregate_parallel_transformers ts
      = ts.map fun t => { t with name := truncName t.name } := by
  unfold aggregate_parallel_transformers
  have h1 : dedupByName [] (ts.map fun t => { t with name := truncName t.name })
      = ts.map fun t => { t with name := truncName t.name } := by
    refine dedupByName_eq_self _ [] ?_ ?_
    · rw [List.map_map]
      simpa [Function.comp] using hnm
    · intro t _
      simp
  rw [h1, List.map_map]
  apply List.map_congr_left
  intro t htm
  simp only [Function.comp]
  have hfil : ts.filter (fun u => decide (u.bus0 = t.bus0 ∧ u.bus1 = t.bus1)) = [t] :=
    filter_pair_eq_singleton ts hpair t htm
  show (fun u =>
      let c := calculate_impedance_for_parallel_components
        ((ts.filter fun w => decide (w.bus0 = u.bus0 ∧ w.bus1 = u.bus1)).map
          fun w => (w.r, w.x, w.s_nom))
      { u with r := c.1, x := c.2.1, s_nom := c.2.2 })
      { t with name := truncName t.name }
    = { t with name := truncName t.name }
  simp only [hfil, List.map_cons, List.map_nil]
  rw [parallel_singleton t.r t.x t.s_nom (hz t htm)]

/-- Counterexample for C7 as stated: aggregating the already-aggregated
single-transformer table again truncates the name by two further characters
(`"Transformer_mvgrid_1"` becomes `"Transformer_mvgrid"`), so the second
application does not yield the same table. -/
theorem c7_aggregate_counterexample :
    aggregate_parallel_transformers (aggregate_parallel_transformers
        [⟨"Transformer_mvgrid_1_1", "B0", "B1", 1, 1, 1⟩])
      ≠ aggregate_parallel_transformers
        [⟨"Transformer_mvgrid_1_1", "B0", "B1", 1, 1, 1⟩] := by
  have h1 : aggregate_parallel_transformers
      [⟨"Transformer_mvgrid_1_1", "B0", "B1", 1, 1, 1⟩]
      = [⟨"Transformer_mvgrid_1", "B0", "B1", 1, 1, 1⟩] := by
    norm_num [aggregate_parallel_transformers, dedupByName, truncName,
      calculate_impedance_for_parallel_components]
  have h2 : aggregate_parallel_transformers
      [⟨"Transformer_mvgrid_1", "B0", "B1", 1, 1, 1⟩]
      = [⟨"Transformer_mvgrid", "B0", "B1", 1, 1, 1⟩] := by
    norm_num [aggregate_parallel_transformers, dedupByName, truncName,
      calculate_impedance_for_parallel_components]
  rw [h1, h2]
  intro hcontra
  have hn := congrArg (fun l => (l.headD ⟨"", "", "", 0, 0, 0⟩).name) hcontra
  simp only [List.headD_cons] at hn
  exact absurd hn (by decide)

/-- Pandas `Series.str.startswith`: does the character sequence of `s` begin
with that of `p`? -/
def pyStartsWith (s p : String) : Bool := p.toList.isPrefixOf s.toList

/-- A pypsa bus row consumed by `_build_bus` and `_mapping`: name (the index),
the `control` string (`"PQ"`, `"PV"`, `"Slack"` or `"None"`) and the voltage
attributes. -/
structure PsaBus where
  name : String
  control : String
  v_mag_pu_max : ℚ
  v_mag_pu_min : ℚ
  v_mag_pu_set : ℚ
  v_nom : ℚ
deriving DecidableEq, Repr

/-- A pypsa generator row consumed by `_build_gen`. -/
structure PsaGen where
  name : String
  bus : String
  p_set : ℚ
  q_set : ℚ
  p_max_pu : ℚ
  p_min_pu : ℚ
  p_nom : ℚ
deriving DecidableEq, Repr

/-- A pypsa load row; `cop` and `p_max` are only populated on heat-pump
rows. -/
structure PsaLoad where
  name : String
  bus : String
  p_set : ℚ
  q_set : ℚ
  cop : ℚ
  p_max : ℚ
deriving DecidableEq, Repr

/-- A pypsa storage-unit row consumed by `_build_storage`. -/
structure PsaStorage where
  name : String
  bus : String
  p_set : ℚ
  q_set : ℚ
  state_of_charge_initial : ℚ
  p_max_pu : ℚ
  p_min_pu : ℚ
deriving DecidableEq, Repr

/-- A pypsa line row with its per-unit attributes (after
`calculate_dependent_values`). -/
structure PsaLine where
  name : String
  bus0 : String
  bus1 : String
  r_pu : ℚ
  x_pu : ℚ
  b_pu : ℚ
  g_pu : ℚ
  s_nom : ℚ
deriving DecidableEq, Repr

/-- A pypsa transformer row with its per-unit attributes; `tapr` models the
`tap_ratio` column and `phase_shift` the phase shift. -/
structure PsaTrafoPu where
  name : String
  bus0 : String
  bus1 : String
  r_pu : ℚ
  x_pu : ℚ
  b_pu : ℚ
  g_pu : ℚ
  s_nom : ℚ
  tapr : ℚ
  phase_shift : ℚ
deriving DecidableEq, Repr

/-- The pypsa network snapshot consumed by the exporter (component frames and
the time-series frames `*_t.p_set` / `*_t.q_set` as name-keyed columns). -/
structure PsaNet where
  buses : List PsaBus
  generators : List PsaGen
  loads : List PsaLoad
  storage_units : List PsaStorage
  lines : List PsaLine
  transformers : List PsaTrafoPu
  generators_t_p : List (String × List ℚ)
  generators_t_q : List (String × List ℚ)
  loads_t_p : List (String × List ℚ)
  loads_t_q : List (String × List ℚ)
  storage_t_p : List (String × List ℚ)
  storage_t_q : List (String × List ℚ)
  snapshots : ℕ
deriving DecidableEq, Repr

/-- `_mapping(psa_net, name)` for the default kind `"bus"`: the one-based
position of the first row of the frame whose index equals `name`
(`df.reset_index()[df.index == name].index[0] + 1`). -/
def _mapping_bus (net : PsaNet) (name : String) : ℕ :=
  (net.buses.map PsaBus.name).indexOf name + 1

/-- `_mapping(psa_net, name, "gen")`. -/
def _mapping_gen (net : PsaNet) (name : String) : ℕ :=
  (net.generators.map PsaGen.name).indexOf name + 1

/-- `_mapping(psa_net, name, "storage")`. -/
def _mapping_storage (net : PsaNet) (name : String) : ℕ :=
  (net.storage_units.map PsaStorage.name).indexOf name + 1

/-- `_mapping(psa_net, name, "load")`: the frame is
`psa_net.loads.loc[psa_net.loads.index.str.startswith("Load")]`. -/
def _mapping_load (net : PsaNet) (name : String) : ℕ :=
  ((net.loads.map PsaLoad.name).filter fun n => pyStartsWith n "Load").indexOf name + 1

/-- `_mapping(psa_net, name, "emob")`: the frame is
`psa_net.loads.loc[psa_net.loads.index.str.startswith("Charging")]`. -/
def _mapping_emob (net : PsaNet) (name : String) : ℕ :=
  ((net.loads.map PsaLoad.name).filter fun n => pyStartsWith n "Charging").indexOf name + 1

/-- The `bus_types` list of `_build_bus` encoding `bus_type` as
1=PQ / 2=PV / 3=Slack / 4=None. -/
def bus_types : List String := ["PQ", "PV", "Slack", "None"]

/-- A record of the `bus` section. -/
structure PmBus where
  bus_i : ℕ
  zone : ℕ
  bus_type : ℕ
  vmax : ℚ
  vmin : ℚ
  va : ℚ
  vm : ℚ
  base_kv : ℚ
  index : ℕ
deriving DecidableEq, Repr

/-- Embedding of `_build_bus`: one record per bus keyed `str(bus_i + 1)`, with
the voltage bounds clamped to at most 1.05 / at least 0.985 p.u.. -/
def _build_bus (net : PsaNet) : List (String × PmBus) :=
  (List.range net.buses.length).map fun i =>
    let b := net.buses.getD i ⟨"", "", 0, 0, 0, 0⟩
    (toString (i + 1),
     { bus_i := i + 1, zone := 1,
       bus_type := bus_types.indexOf b.control + 1,
       vmax := min b.v_mag_pu_max (105/100),
       vmin := max b.v_mag_pu_min (985/1000),
       va := 0, vm := b.v_mag_pu_set, base_kv := b.v_nom, index := i + 1 })

/-- The slack generator's bus, `psa_net.generators.bus[generators.index ==
"Generator_slack"].values[0]`. -/
def slack_gen_bus (net : PsaNet) : String :=
  ((net.generators.find? fun g => g.name == "Generator_slack").map PsaGen.bus).getD ""

/-- The bus section after `_build_gen` forced the slack generator's bus to
`bus_type = 3` (`pm["bus"][str(_mapping(psa_net, slack_gen))]["bus_type"] = 3`). -/
def bus_section (net : PsaNet) : List (String × PmBus) :=
  (_build_bus net).map fun e =>
    if e.1 = toString (_mapping_bus net (slack_gen_bus net))
    then (e.1, { e.2 with bus_type := 3 }) else e

/-- A record of the `gen` section. -/
structure PmGen where
  pg : ℚ
  qg : ℚ
  pmax : ℚ
  pmin : ℚ
  qmax : ℚ
  qmin : ℚ
  vg : ℚ
  mbase : ℚ
  gen_bus : ℕ
  gen_status : ℕ
  index : ℕ
  model : ℕ
  ncost : ℕ
  cost : List ℚ
deriving DecidableEq, Repr

/-- Embedding of the record loop of `_build_gen`: one record per generator
keyed `str(gen_i + 1)`. -/
def _build_gen (net : PsaNet) : List (String × PmGen) :=
  (List.range net.generators.length).map fun i =>
    let g := net.generators.getD i ⟨"", "", 0, 0, 0, 0, 0⟩
    (toString (i + 1),
     { pg := g.p_set, qg := g.q_set, pmax := g.p_max_pu, pmin := g.p_min_pu,
       qmax := 1, qmin := 0, vg := 1, mbase := g.p_nom,
       gen_bus := _mapping_bus net g.bus, gen_status := 1, index := i + 1,
       model := 2, ncost := 3, cost := [120, 20, 0] })

/-- A row of `branches = pd.concat([psa_net.lines, psa_net.transformers])`:
line rows have no `tap_ratio`/`phase_shift` columns, so those are `NaN`
(modelled `none`). -/
structure BranchRow where
  name : String
  r_pu : ℚ
  x_pu : ℚ
  b_pu : ℚ
  g_pu : ℚ
  s_nom : ℚ
  tapr : Option ℚ
  phase_shift : Option ℚ
deriving DecidableEq, Repr

/-- A line as a row of the concatenated branch attribute frame. -/
def PsaLine.toBranchRow (l : PsaLine) : BranchRow :=
  ⟨l.name, l.r_pu, l.x_pu, l.b_pu, l.g_pu, l.s_nom, none, none⟩

/-- A transformer as a row of the concatenated branch attribute frame. -/
def PsaTrafoPu.toBranchRow (t : PsaTrafoPu) : BranchRow :=
  ⟨t.name, t.r_pu, t.x_pu, t.b_pu, t.g_pu, t.s_nom, some t.tapr, some t.phase_shift⟩

/-- A record of the `branch` section (the constant angle bounds
`angmin = -π/6`, `angmax = π/6` have no exact rational embedding and carry no
information, so they are omitted). -/
structure PmBranch where
  name : String
  br_r : ℚ
  br_x : ℚ
  f_bus : ℕ
  t_bus : ℕ
  g_to : ℚ
  g_fr : ℚ
  b_to : ℚ
  b_fr : ℚ
  shift : ℚ
  br_status : ℕ
  rate_a : ℚ
  rate_b : ℚ
  rate_c : ℚ
  transformer : Bool
  tap : ℚ
  index : ℕ
deriving DecidableEq, Repr

/-- Embedding of `_build_branch`: the attribute rows come from the
concatenation of lines and transformers, `transformer = ~tap_ratio.isna()`,
`tap = tap_ratio.fillna(1)`, `shift = phase_shift.fillna(0)` — but the loop
runs only over `np.arange(len(psa_net.lines.index))` and the endpoint buses
are read from `psa_net.lines` directly. -/
def _build_branch (net : PsaNet) : List (String × PmBranch) :=
  let branches := net.lines.map PsaLine.toBranchRow
    ++ net.transformers.map PsaTrafoPu.toBranchRow
  (List.range net.lines.length).map fun i =>
    let b := branches.getD i ⟨"", 0, 0, 0, 0, 0, none, none⟩
    let l := net.lines.getD i ⟨"", "", "", 0, 0, 0, 0, 0⟩
    (toString (i + 1),
     { name := b.name, br_r := b.r_pu, br_x := b.x_pu,
       f_bus := _mapping_bus net l.bus0, t_bus := _mapping_bus net l.bus1,
       g_to := b.g_pu / 2, g_fr := b.g_pu / 2,
       b_to := b.b_pu / 2, b_fr := b.b_pu / 2,
       shift := b.phase_shift.getD 0, br_status := 1,
       rate_a := b.s_nom, rate_b := 250, rate_c := 250,
       transformer := b.tapr.isSome, tap := b.tapr.getD 1,
       index := i + 1 })

/-- A record of the `storage` section (constant TODO fields included). -/
structure PmStorage where
  x : ℚ
  r : ℚ
  ps : ℚ
  qs : ℚ
  pmax : ℚ
  pmin : ℚ
  p_loss : ℚ
  qmax : ℚ
  qmin : ℚ
  q_loss : ℚ
  energy : ℚ
  energy_rating : ℚ
  thermal_rating : ℚ
  charge_rating : ℚ
  discharge_rating : ℚ
  charge_efficiency : ℚ
  discharge_efficiency : ℚ
  storage_bus : ℕ
  status : Bool
  index : ℕ
deriving DecidableEq, Repr

/-- Embedding of `_build_storage`: one record per storage unit keyed
`str(stor_i + 1)`. -/
def _build_storage (net : PsaNet) : List (String × PmStorage) :=
  (List.range net.storage_units.length).map fun i =>
    let s := net.storage_units.getD i ⟨"", "", 0, 0, 0, 0, 0⟩
    (toString (i + 1),
     { x := 0, r := 0, ps := s.p_set, qs := s.q_set,
       pmax := s.p_max_pu, pmin := s.p_min_pu, p_loss := 0,
       qmax := 1, qmin := 0, q_loss := 0,
       energy := s.state_of_charge_initial, energy_rating := 0,
       thermal_rating := 0, charge_rating := 0, discharge_rating := 0,
       charge_efficiency := 1, discharge_efficiency := 1,
       storage_bus := _mapping_bus net s.bus,
       status := true, index := i + 1 })

/-- A record of the `load` section. -/
structure PmLoad where
  pd : ℚ
  qd : ℚ
  load_bus : ℕ
  status : Bool
  index : ℕ
deriving DecidableEq, Repr

/-- `loads_df = psa_net.loads.drop(flexible_cps).drop(flexible_hps)`: the
loads without the flexible charging points and heat pumps (on well-formed
inputs the dropped labels are load names, otherwise pandas `drop` raises). -/
def loads_df (net : PsaNet) (flexible_cps flexible_hps : List String) :
    List PsaLoad :=
  (net.loads.filter fun l => !decide (l.name ∈ flexible_cps)).filter
    fun l => !decide (l.name ∈ flexible_hps)

/-- Embedding of `_build_load`: one record per remaining (non-flexible) load,
keyed `str(load_i + 1)` by position in `loads_df`. -/
def _build_load (net : PsaNet) (flexible_cps flexible_hps : List String) :
    List (String × PmLoad) :=
  let df := loads_df net flexible_cps flexible_hps
  (List.range df.length).map fun i =>
    let l := df.getD i ⟨"", "", 0, 0, 0, 0⟩
    (toString (i + 1),
     { pd := l.p_set, qd := l.q_set, load_bus := _mapping_bus net l.bus,
       status := true, index := i + 1 })

/-- A record of the `electromobility` section. -/
structure PmEmob where
  pd : ℚ
  qd : ℚ
  p_max : ℚ
  e_min : ℚ
  e_max : ℚ
  cp_bus : ℕ
  index : ℕ
deriving DecidableEq, Repr

/-- Embedding of `_build_electromobility`: with no flexible charging points
the function only prints, leaving the section the empty dict installed by
`_init_pm`; otherwise one record per flexible charging point
(`psa_net.loads.loc[flexible_cps]` selects rows in the order of
`flexible_cps`). -/
def _build_electromobility (net : PsaNet) (flexible_cps : List String) :
    List (String × PmEmob) :=
  if flexible_cps.length = 0 then []
  else
    let emob_df := flexible_cps.filterMap fun n =>
      net.loads.find? fun l => l.name == n
    (List.range emob_df.length).map fun i =>
      let l := emob_df.getD i ⟨"", "", 0, 0, 0, 0⟩
      (toString (i + 1),
       { pd := l.p_set, qd := l.q_set, p_max := 1, e_min := 0, e_max := 1,
         cp_bus := _mapping_bus net l.bus, index := i + 1 })

/-- A record of the `heatpumps` section. -/
structure PmHp where
  pd : ℚ
  qd : ℚ
  p_max : ℚ
  cop : ℚ
  hp_bus : ℕ
  index : ℕ
deriving DecidableEq, Repr

/-- Embedding of `_build_heatpumps`: with no flexible heat pumps the function
only prints, leaving the section the empty dict installed by `_init_pm`;
otherwise one record per flexible heat pump. -/
def _build_heatpumps (net : PsaNet) (flexible_hps : List String) :
    List (String × PmHp) :=
  if flexible_hps.length = 0 then []
  else
    let heat_df := flexible_hps.filterMap fun n =>
      net.loads.find? fun l => l.name == n
    (List.range heat_df.length).map fun i =>
      let l := heat_df.getD i ⟨"", "", 0, 0, 0, 0⟩
      (toString (i + 1),
       { pd := l.p_set, qd := l.q_set, p_max := l.p_max, cop := l.cop,
         hp_bus := _mapping_bus net l.bus, index := i + 1 })

/-- Embedding of `_build_component_timeseries(psa_net, "gen")`: one entry per
column of `generators_t.p_set`, keyed `str(_mapping(psa_net, comp, "gen"))`,
holding the active- and reactive-power series. -/
def _build_gen_timeseries (net : PsaNet) : List (String × (List ℚ × List ℚ)) :=
  (net.generators_t_p.map Prod.fst).map fun n =>
    (toString (_mapping_gen net n),
     ((net.generators_t_p.lookup n).getD [], (net.generators_t_q.lookup n).getD []))

/-- Embedding of `_build_component_timeseries(psa_net, "load")`: the columns
are restricted to those whose names start with `"Load"`, and each entry is
keyed `str(_mapping(psa_net, comp, "load"))`. -/
def _build_load_timeseries (net : PsaNet) : List (String × (List ℚ × List ℚ)) :=
  ((net.loads_t_p.map Prod.fst).filter fun n => pyStartsWith n "Load").map fun n =>
    (toString (_mapping_load net n),
     ((net.loads_t_p.lookup n).getD [], (net.loads_t_q.lookup n).getD []))

/-- Embedding of `_build_component_timeseries(psa_net, "storage")`. -/
def _build_storage_timeseries (net : PsaNet) :
    List (String × (List ℚ × List ℚ)) :=
  (net.storage_t_p.map Prod.fst).map fun n =>
    (toString (_mapping_storage net n),
     ((net.storage_t_p.lookup n).getD [], (net.storage_t_q.lookup n).getD []))

/-- Error of `_build_component_timeseries`: Python's UnboundLocalError. -/
inductive PmTsError where
  | unboundLocal
deriving DecidableEq, Repr

/-- The flexibility bands returned by
`edisgo_obj.electromobility.get_flexibility_bands` (an external provider). -/
structure FlexBands where
  upper_power : List (String × List ℚ)
  lower_energy : List (String × List ℚ)
  upper_energy : List (String × List ℚ)
deriving DecidableEq, Repr

/-- Embedding of `_build_component_timeseries(psa_net, "emob", ...)`: when
`flexible_cps` is empty the branch assigns only `p_set = pd.DataFrame()` and
never assigns the local `pm_comp`, so the final `return pm_comp` raises
Python's UnboundLocalError; otherwise one band entry per flexible charging
point, keyed `str(_mapping(psa_net, comp, "emob"))`. -/
def _build_emob_timeseries (net : PsaNet) (fb : FlexBands)
    (flexible_cps : List String) :
    Except PmTsError (List (String × (List ℚ × List ℚ × List ℚ))) :=
  if flexible_cps.length = 0 then .error .unboundLocal
  else .ok (flexible_cps.map fun n =>
    (toString (_mapping_emob net n),
     ((fb.upper_power.lookup n).getD [],
      (fb.lower_energy.lookup n).getD [],
      (fb.upper_energy.lookup n).getD [])))

/-- Embedding of `_build_component_timeseries(psa_net, "heatpumps", ...)`:
`pm_comp = dict()` is assigned before the emptiness test and the per-column
loop body is only `print("To Do")`, inserting nothing, so the returned table
is always the empty dict. -/
def _build_hp_timeseries (_net : PsaNet) (_flexible_hps : List String) :
    List (String × List ℚ) := []

/-- The PowerModels structure assembled by `to_powermodels` (sections and the
`time_series` sub-tables; constant metadata reproduced, the unused `dcline`,
`switch`, `shunt` and `dsm` tables of `_init_pm` stay empty and are
omitted). -/
structure PmStruct where
  name : String
  baseMVA : ℕ
  source_version : ℕ
  bus : List (String × PmBus)
  gen : List (String × PmGen)
  branch : List (String × PmBranch)
  load : List (String × PmLoad)
  storage : List (String × PmStorage)
  electromobility : List (String × PmEmob)
  heatpumps : List (String × PmHp)
  ts_gen : List (String × (List ℚ × List ℚ))
  ts_load : List (String × (List ℚ × List ℚ))
  ts_storage : List (String × (List ℚ × List ℚ))
  ts_electromobility : List (String × (List ℚ × List ℚ × List ℚ))
  ts_heatpumps : List (String × List ℚ)
  num_steps : ℕ
deriving Repr

/-- Embedding of `to_powermodels` on a network that already went through the
pre-passes (`to_pypsa`, `aggregate_parallel_transformers` and pypsa's
`calculate_dependent_values`): assemble every section and the time series;
building the electromobility time series raises when `flexible_cps` is
empty. -/
def to_powermodels (net : PsaNet) (fb : FlexBands) (gridId : String)
    (flexible_cps flexible_hps : List String) : Except PmTsError PmStruct :=
  match _build_emob_timeseries net fb flexible_cps with
  | .error e => .error e
  | .ok em =>
    .ok { name := "ding0_" ++ gridId ++ "_t_" ++ toString net.snapshots,
          baseMVA := 1, source_version := 2,
          bus := bus_section net, gen := _build_gen net,
          branch := _build_branch net,
          load := _build_load net flexible_cps flexible_hps,
          storage := _build_storage net,
          electromobility := _build_electromobility net flexible_cps,
          heatpumps := _build_heatpumps net flexible_hps,
          ts_gen := _build_gen_timeseries net,
          ts_load := _build_load_timeseries net,
          ts_storage := _build_storage_timeseries net,
          ts_electromobility := em,
          ts_heatpumps := _build_hp_timeseries net flexible_hps,
          num_steps := net.snapshots }

/-- A minimal concrete network with one bus, the slack generator and one
flexible charging point, used to evaluate the exporter. -/
def netC9 : PsaNet :=
  { buses := [⟨"B1", "Slack", 105/100, 985/1000, 1, 20⟩],
    generators := [⟨"Generator_slack", "B1", 0, 0, 1, 0, 1⟩],
    loads := [⟨"Charging_cp1", "B1", 1, 0, 0, 0⟩],
    storage_units := [], lines := [], transformers := [],
    generators_t_p := [("Generator_slack", [0])],
    generators_t_q := [("Generator_slack", [0])],
    loads_t_p := [("Charging_cp1", [1])],
    loads_t_q := [("Charging_cp1", [0])],
    storage_t_p := [], storage_t_q := [],
    snapshots := 1 }

/-- Flexibility bands for `netC9`'s charging point. -/
def fbC9 : FlexBands :=
  ⟨[("Charging_cp1", [1])], [("Charging_cp1", [0])], [("Charging_cp1", [1])]⟩

/-- C9 (code bug): with an empty set of flexible charging points the
electromobility time-series builder reaches `return pm_comp` with `pm_comp`
never assigned, so `to_powermodels` raises UnboundLocalError instead of
completing with empty tables; with an empty set of flexible heat pumps it
completes and the heat-pump component table and its time-series entry are
present and empty, as the claim demands. -/
theorem c9_empty_flexible_sets :
    (∀ (net : PsaNet) (fb : FlexBands) (gid : String) (hps : List String),
      to_powermodels net fb gid [] hps = .error PmTsError.unboundLocal)
    ∧ (to_powermodels netC9 fbC9 "gid" ["Charging_cp1"] []).map
        (fun pm => (pm.heatpumps, pm.ts_heatpumps)) = .ok ([], []) := by
  constructor
  · intro net fb gid hps
    simp [to_powermodels, _build_emob_timeseries]
  · simp [to_powermodels, _build_emob_timeseries, _build_heatpumps,
      _build_hp_timeseries, Except.map]

/-- C10: the branch section contains exactly one record per line of the
network, keyed densely `"1" .. str(len(lines))`, its records are the lines in
their original order, and it never contains a record for any transformer: the
transformer rows concatenated into the attribute frame are never reached, the
loop covering only the line positions. -/
theorem c10_branch_section (net : PsaNet)
    (hdisj : ∀ t ∈ net.transformers, t.name ∉ net.lines.map PsaLine.name) :
    ((_build_branch net).map Prod.fst
        = (List.range net.lines.length).map fun i => toString (i + 1))
    ∧ (((_build_branch net).map fun e => e.2.name) = net.lines.map PsaLine.name)
    ∧ (∀ t ∈ net.transformers, ∀ e ∈ _build_branch net, e.2.name ≠ t.name) := by
  have hkeys : (_build_branch net).map Prod.fst
      = (List.range net.lines.length).map fun i => toString (i + 1) := by
    simp only [_build_branch, List.map_map]
    rfl
  have hnames : ((_build_branch net).map fun e => e.2.name)
      = net.lines.map PsaLine.name := by
    apply List.ext_getElem
    · simp [_build_branch]
    · intro i h1 h2
      have hi : i < net.lines.length := by simpa using h2
      have hib : i < (net.lines.map PsaLine.toBranchRow).length := by
        simpa using hi
      simp only [_build_branch, List.getElem_map, List.getElem_range]
      rw [List.getD_append _ _ _ _ hib, List.getD_eq_getElem _ _ hib,
        List.getElem_map]
      rfl
  refine ⟨hkeys, hnames, ?_⟩
  intro t ht e he heq
  have hmm : e.2.name ∈ (_build_branch net).map fun e => e.2.name :=
    List.mem_map_of_mem _ he
  rw [hnames] at hmm
  exact hdisj t ht (heq ▸ hmm)

/-- A concrete network with one line and one (parallel) transformer between
the same buses, used to evaluate the branch builder. -/
def netC10 : PsaNet :=
  { buses := [⟨"B0", "PQ", 11/10, 9/10, 1, 20⟩, ⟨"B1", "PQ", 11/10, 9/10, 1, 20⟩],
    generators := [], loads := [], storage_units := [],
    lines := [⟨"line1", "B0", "B1", 1, 1, 0, 0, 1⟩],
    transformers := [⟨"trafo1", "B0", "B1", 1, 1, 0, 0, 1, 1, 0⟩],
    generators_t_p := [], generators_t_q := [], loads_t_p := [], loads_t_q := [],
    storage_t_p := [], storage_t_q := [], snapshots := 1 }

/-- Witness for C10: on `netC10` the branch section has the single key `"1"`
and its only record is the line `line1` (no `trafo1` record). -/
theorem c10_branch_section_witness :
    ((_build_branch netC10).map Prod.fst = ["1"])
    ∧ (((_build_branch netC10).map fun e => e.2.name) = ["line1"]) := by
  have h := c10_branch_section netC10 (by
    rintro t ht
    simp only [netC10, List.mem_singleton] at ht
    subst ht
    decide)
  constructor
  · rw [h.1]; rfl
  · rw [h.2.1]; rfl

/-- The dense string keys `"1"`, ..., `"N"` of a section with `n` records. -/
def denseKeys (n : ℕ) : List String := (List.range n).map fun i => toString (i + 1)

/-- The positional name-to-index association a builder loop induces: the
`i`-th element name of the section's frame gets the one-based index `i + 1`. -/
def positionalAssoc (names : List String) : List (String × ℕ) :=
  names.enum.map fun p => (p.2, p.1 + 1)

/-- The element-name lists of the five indexed component sections. -/
def section_name_lists (net : PsaNet) (flexible_cps flexible_hps : List String) :
    List (List String) :=
  [net.buses.map PsaBus.name, net.generators.map PsaGen.name,
   net.lines.map PsaLine.name,
   (loads_df net flexible_cps flexible_hps).map PsaLoad.name,
   net.storage_units.map PsaStorage.name]

/-- Helper: mapping distinct names through their own first-index function
enumerates `0, ..., N-1`. -/
theorem map_indexOf_eq_range (names : List String) (hnd : names.Nodup) :
    (names.map fun n => names.indexOf n) = List.range names.length := by
  apply List.ext_getElem
  · simp
  · intro i h1 h2
    simp only [List.getElem_map, List.getElem_range]
    exact List.indexOf_getElem hnd i (by simpa using h1)

/-- Helper: the first components of the positional association are the
names themselves, in order. -/
theorem positionalAssoc_fst (names : List String) :
    (positionalAssoc names).map Prod.fst = names := by
  apply List.ext_getElem
  · simp [positionalAssoc, List.enum_length]
  · intro i h1 h2
    simp [positionalAssoc, List.getElem_enum]

/-- Helper: the indices of the positional association are `1, ..., N`. -/
theorem positionalAssoc_snd (names : List String) :
    (positionalAssoc names).map Prod.snd
      = (List.range names.length).map (· + 1) := by
  apply List.ext_getElem
  · simp [positionalAssoc, List.enum_length]
  · intro i h1 h2
    simp [positionalAssoc, List.getElem_enum]

/-- Helper: the members of the positional association are exactly the
positions of the section's frame with their one-based indices. -/
theorem mem_positionalAssoc {names : List String} {n : String} {i : ℕ} :
    (n, i) ∈ positionalAssoc names ↔
      ∃ k, ∃ h : k < names.length, names[k] = n ∧ i = k + 1 := by
  constructor
  · intro h
    rcases List.mem_map.mp h with ⟨p, hp, hpe⟩
    rcases List.mem_iff_getElem.mp hp with ⟨k, hk, hke⟩
    have hk' : k < names.length := by simpa [List.enum_length] using hk
    rw [List.getElem_enum] at hke
    have hpe' := hpe
    rw [← hke] at hpe'
    simp only [Prod.mk.injEq] at hpe'
    exact ⟨k, hk', hpe'.1, hpe'.2.symm⟩
  · rintro ⟨k, hk, hkn, hik⟩
    subst hik
    refine List.mem_map.mpr ⟨(k, names[k]), ?_, by simp [hkn]⟩
    refine List.mem_iff_getElem.mpr ⟨k, by simpa [List.enum_length] using hk, ?_⟩
    rw [List.getElem_enum]

/-- Helper: mapping a column list equal to the (distinct) frame names through
`name ↦ str(indexOf + 1)` yields exactly the dense section keys. -/
theorem ts_keys_dense (names cols : List String) (hnd : names.Nodup)
    (hcols : cols = names) :
    (cols.map fun n => toString (names.indexOf n + 1)) = denseKeys names.length := by
  rw [hcols]
  have h2 : (names.map fun n => toString (names.indexOf n + 1))
      = ((names.map fun n => names.indexOf n).map fun k => toString (k + 1)) := by
    rw [List.map_map]
    rfl
  rw [h2, map_indexOf_eq_range _ hnd]
  rfl

/-- C8 (amended): each of the bus, gen, branch, load and storage sections is
keyed by the dense 1-based integer keys `"1" .. "N"`; the positional
name-to-index association of every section is a bijection when the section's
element names are distinct; and the time-series keys coincide with the
component-section keys for generators and storage always, and for loads
provided the loads remaining after dropping the flexible ones are exactly
those whose names start with `"Load"` — the time-series side indexes by
position among the `"Load*"`-named loads while the component side indexes by
position after dropping flexibles, so a non-flexible load with another name
(e.g. a public charging point) breaks the correspondence. -/
theorem c8_exporter_mapping_amended (net : PsaNet)
    (flexible_cps flexible_hps : List String)
    (hload : (net.loads.map PsaLoad.name).Nodup)
    (hgen : (net.generators.map PsaGen.name).Nodup)
    (hsto : (net.storage_units.map PsaStorage.name).Nodup)
    (hgcols : net.generators_t_p.map Prod.fst = net.generators.map PsaGen.name)
    (hscols : net.storage_t_p.map Prod.fst = net.storage_units.map PsaStorage.name)
    (hlcols : net.loads_t_p.map Prod.fst = net.loads.map PsaLoad.name)
    (halign : (net.loads.map PsaLoad.name).filter (fun n => pyStartsWith n "Load")
        = (loads_df net flexible_cps flexible_hps).map PsaLoad.name) :
    ((bus_section net).map Prod.fst = denseKeys net.buses.length
      ∧ (_build_gen net).map Prod.fst = denseKeys net.generators.length
      ∧ (_build_branch net).map Prod.fst = denseKeys net.lines.length
      ∧ (_build_load net flexible_cps flexible_hps).map Prod.fst
          = denseKeys (loads_df net flexible_cps flexible_hps).length
      ∧ (_build_storage net).map Prod.fst = denseKeys net.storage_units.length)
    ∧ (∀ names ∈ section_name_lists net flexible_cps flexible_hps, names.Nodup →
        ((positionalAssoc names).map Prod.fst = names
          ∧ (positionalAssoc names).map Prod.snd
              = (List.range names.length).map (· + 1)
          ∧ (∀ n i j, (n, i) ∈ positionalAssoc names →
              (n, j) ∈ positionalAssoc names → i = j)
          ∧ (∀ n m i, (n, i) ∈ positionalAssoc names →
              (m, i) ∈ positionalAssoc names → n = m)))
    ∧ ((_build_gen_timeseries net).map Prod.fst = (_build_gen net).map Prod.fst
      ∧ (_build_storage_timeseries net).map Prod.fst
          = (_build_storage net).map Prod.fst
      ∧ (_build_load_timeseries net).map Prod.fst
          = (_build_load net flexible_cps flexible_hps).map Prod.fst) := by
  have hbus_keys : (bus_section net).map Prod.fst = denseKeys net.buses.length := by
    have h0 : (bus_section net).map Prod.fst = (_build_bus net).map Prod.fst := by
      simp only [bus_section, List.map_map]
      apply List.map_congr_left
      intro e _
      show (if e.1 = toString (_mapping_bus net (slack_gen_bus net))
          then (e.1, { e.2 with bus_type := 3 }) else e).1 = e.1
      split <;> rfl
    rw [h0]
    simp only [_build_bus, List.map_map]
    rfl
  have hgen_keys : (_build_gen net).map Prod.fst = denseKeys net.generators.length := by
    simp only [_build_gen, List.map_map]
    rfl
  have hbranch_keys : (_build_branch net).map Prod.fst = denseKeys net.lines.length := by
    simp only [_build_branch, List.map_map]
    rfl
  have hload_keys : (_build_load net flexible_cps flexible_hps).map Prod.fst
      = denseKeys (loads_df net flexible_cps flexible_hps).length := by
    simp only [_build_load, List.map_map]
    rfl
  have hsto_keys : (_build_storage net).map Prod.fst
      = denseKeys net.storage_units.length := by
    simp only [_build_storage, List.map_map]
    rfl
  refine ⟨⟨hbus_keys, hgen_keys, hbranch_keys, hload_keys, hsto_keys⟩, ?_, ?_, ?_, ?_⟩
  · intro names _ hnd
    refine ⟨positionalAssoc_fst names, positionalAssoc_snd names, ?_, ?_⟩
    · intro n i j hi hj
      rcases mem_positionalAssoc.mp hi with ⟨k1, hk1, hn1, hi1⟩
      rcases mem_positionalAssoc.mp hj with ⟨k2, hk2, hn2, hi2⟩
      have : k1 = k2 := (List.Nodup.getElem_inj_iff hnd).mp (hn1.trans hn2.symm)
      rw [hi1, hi2, this]
    · intro n m i hn hm
      rcases mem_positionalAssoc.mp hn with ⟨k1, hk1, hn1, hi1⟩
      rcases mem_positionalAssoc.mp hm with ⟨k2, hk2, hn2, hi2⟩
      have hk : k1 = k2 := by omega
      subst hk
      exact hn1.symm.trans hn2
  · have h1 : (_build_gen_timeseries net).map Prod.fst
        = ((net.generators.map PsaGen.name).map fun n =>
            toString ((net.generators.map PsaGen.name).indexOf n + 1)) := by
      simp only [_build_gen_timeseries, List.map_map, hgcols]
      rfl
    rw [h1, ts_keys_dense _ _ hgen rfl, hgen_keys, List.length_map]
  · have h1 : (_build_storage_timeseries net).map Prod.fst
        = ((net.storage_units.map PsaStorage.name).map fun n =>
            toString ((net.storage_units.map PsaStorage.name).indexOf n + 1)) := by
      simp only [_build_storage_timeseries, List.map_map, hscols]
      rfl
    rw [h1, ts_keys_dense _ _ hsto rfl, hsto_keys, List.length_map]
  · have hdfnd : ((loads_df net flexible_cps flexible_hps).map PsaLoad.name).Nodup := by
      refine hload.sublist (List.Sublist.map PsaLoad.name ?_)
      exact (List.filter_sublist _).trans (List.filter_sublist _)
    have h1 : (_build_load_timeseries net).map Prod.fst
        = (((loads_df net flexible_cps flexible_hps).map PsaLoad.name).map fun n =>
            toString (((loads_df net flexible_cps flexible_hps).map
              PsaLoad.name).indexOf n + 1)) := by
      simp only [_build_load_timeseries, List.map_map]
      rw [show ((net.loads_t_p.map Prod.fst).filter fun n => pyStartsWith n "Load")
          = (loads_df net flexible_cps flexible_hps).map PsaLoad.name by
        rw [hlcols, halign]]
      simp only [List.map_map]
      apply List.map_congr_left
      intro l _
      simp [_mapping_load, halign]
    rw [h1, ts_keys_dense _ _ hdfnd rfl, hload_keys, List.length_map]

/-- A concrete network with a public (non-flexible) charging point between two
conventional loads, exhibiting the load-index mismatch. -/
def netC8 : PsaNet :=
  { buses := [⟨"B1", "PQ", 11/10, 9/10, 1, 20⟩],
    generators := [⟨"Generator_slack", "B1", 0, 0, 1, 0, 1⟩],
    loads := [⟨"Load_a", "B1", 1, 0, 0, 0⟩, ⟨"Charging_pub", "B1", 1, 0, 0, 0⟩,
      ⟨"Load_b", "B1", 2, 0, 0, 0⟩],
    storage_units := [], lines := [], transformers := [],
    generators_t_p := [("Generator_slack", [0])],
    generators_t_q := [("Generator_slack", [0])],
    loads_t_p := [("Load_a", [1]), ("Charging_pub", [1]), ("Load_b", [2])],
    loads_t_q := [("Load_a", [0]), ("Charging_pub", [0]), ("Load_b", [0])],
    storage_t_p := [], storage_t_q := [],
    snapshots := 1 }

/-- Counterexample for C8 as stated: in `netC8` with no flexible loads, the
load `Load_b` is the third record of the load section (index 3, keys
`"1".."3"`), but its time-series entry — the time-series side keys by position
among the `"Load*"`-named loads — gets the key `"2"`: the component index and
the time-series index of the same element differ. -/
theorem c8_mapping_counterexample :
    ((loads_df netC8 [] []).map PsaLoad.name
        = ["Load_a", "Charging_pub", "Load_b"])
    ∧ ((_build_load netC8 [] []).map Prod.fst = ["1", "2", "3"])
    ∧ ((_build_load_timeseries netC8).map Prod.fst = ["1", "2"])
    ∧ (((loads_df netC8 [] []).map PsaLoad.name).indexOf "Load_b" + 1 = 3)
    ∧ (_mapping_load netC8 "Load_b" = 2)
    ∧ ((2 : ℕ) ≠ 3) := by
  refine ⟨rfl, rfl, rfl, rfl, rfl, by decide⟩

/-- A concrete network whose only load is named `Load_x`, satisfying the
alignment hypothesis of the amended C8. -/
def netW : PsaNet :=
  { buses := [⟨"B1", "PQ", 11/10, 9/10, 1, 20⟩],
    generators := [⟨"Generator_slack", "B1", 0, 0, 1, 0, 1⟩],
    loads := [⟨"Load_x", "B1", 1, 0, 0, 0⟩],
    storage_units := [], lines := [], transformers := [],
    generators_t_p := [("Generator_slack", [0])],
    generators_t_q := [("Generator_slack", [0])],
    loads_t_p := [("Load_x", [1])],
    loads_t_q := [("Load_x", [0])],
    storage_t_p := [], storage_t_q := [],
    snapshots := 1 }

/-- Witness for the amended C8 at `netW`: the load and generator time-series
keys agree with the component keys and the gen section keys are dense. -/
theorem c8_exporter_mapping_amended_witness :
    ((_build_load_timeseries netW).map Prod.fst
        = (_build_load netW [] []).map Prod.fst)
    ∧ ((_build_gen_timeseries netW).map Prod.fst
        = (_build_gen netW).map Prod.fst)
    ∧ ((_build_gen netW).map Prod.fst = denseKeys netW.generators.length) := by
  have h := c8_exporter_mapping_amended netW [] [] (by decide) (by decide)
    (by decide) rfl rfl rfl rfl
  exact ⟨h.2.2.2.2, h.2.2.1, h.1.2.1⟩

/-- Witness for the amended C7: re-aggregating the singleton aggregated table
only truncates the name two further characters. -/
theorem c7_aggregate_amended_witness :
    aggregate_parallel_transformers [⟨"TrafoA_1", "B0", "B1", 1, 1, 1⟩]
      = [⟨"TrafoA", "B0", "B1", 1, 1, 1⟩] := by
  have h := c7_aggregate_amended [⟨"TrafoA_1", "B0", "B1", 1, 1, 1⟩]
    (by simp) (by intro t htm; simp at htm; subst htm; norm_num) (by simp)
  simpa [truncName] using h
